import Mathlib

/-!
# Verification of the go-spatial hydrological terrain-analysis core

This file shallowly embeds the parts of the go-spatial repository that the
claims C1..C10 are about:

* the `tools` package priority queue (`tools/breachDepressions.go`),
* the `structures` package priority queue (`structures/priorityqueue.go`),
* the depression-breaching tool `BreachDepressions.Run`,
* the edge-cell initialisation of `FillDepressions.Run`,
* the D8 flow-accumulation tool `D8FlowAccumulation.Run`,
* the integral-image window of `DeviationFromMean.Run` together with its
  companion `DeviationFromMeanTraditional.Run`,
* the priority keys of `BreachStreams.Run`.

Modelling conventions:

* Go `float64` values are modelled as exact rationals (`ℚ`); `math.Pow`,
  division and comparisons are the exact rational operations.
* Go `int`/`int32`/`int64` are modelled as `ℤ`; the conversion
  `int64(x)` of a float to an integer truncates toward zero and is modelled
  by `f2i`.  Overflow does not occur for the inputs considered.
* Go 2-d slices are modelled as total functions `ℤ → ℤ → α` together with
  the functional update `upd`; reads outside the allocated range never
  occur in the modelled runs.
* Unbounded `for` loops are modelled with an explicit fuel argument; a run
  that exhausts its fuel is reported as a distinguished error value, as is
  a `Pop` performed on an empty queue (which panics in Go).
-/

set_option maxRecDepth 4000

namespace GoSpatial

/-! ## Core numeric helpers -/

/-- Truncation of a rational toward zero: the Go conversion `int64(x)` /
`int(x)` applied to an exactly-represented value. -/
def f2i (q : ℚ) : ℤ :=
  if q.num < 0 then -((-q.num) / (q.den : ℤ)) else q.num / (q.den : ℤ)

/-- Number of decimal digits of a natural number: `len(strconv.Itoa(n))`
for `n ≥ 0`. -/
def digits10 (n : ℕ) : ℕ :=
  if n < 10 then 1 else digits10 (n / 10) + 1
termination_by n
decreasing_by exact Nat.div_lt_self (by omega) (by omega)

/-- `len(strconv.Itoa(z))` for an arbitrary integer (a minus sign counts). -/
def itoaLen (z : ℤ) : ℕ :=
  if z < 0 then 1 + digits10 (-z).toNat else digits10 z.toNat

/-- `b^n` by repeated multiplication (kept structural so that it can be
evaluated by `simp`/`norm_num`). -/
def powQ (b : ℚ) : ℕ → ℚ
  | 0 => 1
  | n + 1 => b * powQ b n

/-- `math.Pow(10, e)` for an integer exponent `e`. -/
def qpow10 (e : ℤ) : ℚ :=
  if 0 ≤ e then powQ 10 e.toNat else 1 / powQ 10 (-e).toNat

/-- `math.MaxFloat64` (exact value of the largest finite float64). -/
def maxFloat64 : ℚ := 2 ^ (1024 : ℕ) - 2 ^ (971 : ℕ)

/-- `math.MaxInt32`. -/
def maxInt32 : ℤ := 2147483647

/-- Functional update of a 2-d grid, modelling `g[i][j] = v`. -/
def upd {α : Type} (g : ℤ → ℤ → α) (i j : ℤ) (v : α) : ℤ → ℤ → α :=
  fun r c => if r = i ∧ c = j then v else g r c

/-! ## The raster value model

`Raster.Value` follows `geospatialfiles/raster/raster.go`: an out-of-range
read returns the nodata value (the terrain tools leave
`reflectAtBoundaries` at its default `false`, so the reflection branch is
dead code for the modelled runs).  `GetMinimumValue` / `GetMaximumValue`
follow `findMinAndMaxVals`, a row-major scan that skips nodata cells and
starts from `math.MaxFloat64` / `-math.MaxFloat64`. -/

structure Raster where
  Rows : ℤ
  Columns : ℤ
  NoDataValue : ℚ
  data : ℤ → ℤ → ℚ

def Raster.Value (r : Raster) (row column : ℤ) : ℚ :=
  if 0 ≤ column ∧ column < r.Columns ∧ 0 ≤ row ∧ row < r.Rows then
    r.data row column
  else r.NoDataValue

/-- The in-range cells in row-major order. -/
def cellList (rows columns : ℤ) : List (ℤ × ℤ) :=
  (List.range rows.toNat).flatMap
    (fun row => (List.range columns.toNat).map (fun col : ℕ => ((row : ℤ), (col : ℤ))))

def Raster.GetMinimumValue (r : Raster) : ℚ :=
  (cellList r.Rows r.Columns).foldl
    (fun m rc =>
      if r.data rc.1 rc.2 ≠ r.NoDataValue ∧ r.data rc.1 rc.2 < m then r.data rc.1 rc.2 else m)
    maxFloat64

def Raster.GetMaximumValue (r : Raster) : ℚ :=
  (cellList r.Rows r.Columns).foldl
    (fun m rc =>
      if r.data rc.1 rc.2 ≠ r.NoDataValue ∧ m < r.data rc.1 rc.2 then r.data rc.1 rc.2 else m)
    (-maxFloat64)

/-! ## The 8-neighbour tables

`dX = {1, 1, 1, 0, -1, -1, -1, 0}`, `dY = {-1, 0, 1, 1, 1, 0, -1, -1}`,
`backLink = {5, 6, 7, 8, 1, 2, 3, 4}`, shared verbatim by all the tools
modelled here. -/

def dX (n : ℕ) : ℤ := [1, 1, 1, 0, -1, -1, -1, 0].getD n 0

def dY (n : ℕ) : ℤ := [-1, 0, 1, 1, 1, 0, -1, -1].getD n 0

def backLink (n : ℕ) : ℕ := [5, 6, 7, 8, 1, 2, 3, 4].getD n 0

/-! ## Generic binary-heap core

Both priority queues of the repository are 1-indexed binary heaps over an
array whose slot 0 is unused; we model the slots `1 .. elemsCount` as a
`List` (Lean index `i` is Go index `i + 1`), and the Go comparison used in
`swim`/`sink` as a boolean function `cmp` on priorities: the `tools` queue
swaps when `parent.priority > child.priority` and the `structures` queue
swaps when `parent.priority < child.priority`. -/

namespace HeapCore

/-- `l[i], l[j] = l[j], l[i]`. -/
def swapL {β : Type} (d : β) (l : List β) (i j : ℕ) : List β :=
  (l.set i (l.getD j d)).set j (l.getD i d)

/-- `swim(k)`: `for k > 1 && cmp(items[k/2].priority, items[k].priority) {
swap(k/2, k); k = k/2 }`, translated to 0-based indices (`j` is Go `k - 1`,
its parent `(j-1)/2` is Go `k/2`). -/
def swim {β : Type} (d : β) (pr : β → ℤ) (cmp : ℤ → ℤ → Bool)
    (l : List β) (j : ℕ) : List β :=
  if _h : j = 0 then l
  else if cmp (pr (l.getD ((j - 1) / 2) d)) (pr (l.getD j d)) then
    swim d pr cmp (swapL d l ((j - 1) / 2) j) ((j - 1) / 2)
  else l
termination_by j
decreasing_by omega

/-- The child index `j` selected by `sink` at 0-based node `k`: the left
child, or the right child when it exists and wins the comparison. -/
def childIdx {β : Type} (d : β) (pr : β → ℤ) (cmp : ℤ → ℤ → Bool)
    (l : List β) (k : ℕ) : ℕ :=
  if 2 * k + 2 < l.length ∧ cmp (pr (l.getD (2 * k + 1) d)) (pr (l.getD (2 * k + 2) d)) then
    2 * k + 2
  else 2 * k + 1

/-- `sink(k)` of the source, translated to 0-based indices: while the node
has a left child, pick the preferred child `j`; stop unless
`cmp(items[k].priority, items[j].priority)`; otherwise swap and continue
at `j`.  The while loop is modelled with fuel (as every loop here); each
step moves `k` to a strictly larger in-range index, so `l.length` steps
always suffice. -/
def sinkFuel {β : Type} (d : β) (pr : β → ℤ) (cmp : ℤ → ℤ → Bool) :
    ℕ → List β → ℕ → List β
  | 0, l, _ => l
  | fuel + 1, l, k =>
      if 2 * k + 1 < l.length then
        if cmp (pr (l.getD k d)) (pr (l.getD (childIdx d pr cmp l k) d)) then
          sinkFuel d pr cmp fuel (swapL d l k (childIdx d pr cmp l k))
            (childIdx d pr cmp l k)
        else l
      else l

def sink {β : Type} (d : β) (pr : β → ℤ) (cmp : ℤ → ℤ → Bool)
    (l : List β) (k : ℕ) : List β :=
  sinkFuel d pr cmp l.length l k

/-- The heap-order invariant: no parent/child pair triggers the swap
comparison (for the `tools` queue this says every parent's priority is
`≤` its child's; for the `structures` queue, `≥`). -/
def heapProp {β : Type} (d : β) (pr : β → ℤ) (cmp : ℤ → ℤ → Bool) (l : List β) : Prop :=
  ∀ j, 0 < j → j < l.length →
    cmp (pr (l.getD ((j - 1) / 2) d)) (pr (l.getD j d)) = false

/-- The invariant maintained while `swim` bubbles position `j` up: every
parent/child pair except the one ending at `j` is ordered, and `j`'s
children (if any) are ordered with respect to `j`'s parent. -/
def upExcept {β : Type} (d : β) (pr : β → ℤ) (cmp : ℤ → ℤ → Bool) (l : List β) (j : ℕ) :
    Prop :=
  (∀ i, 0 < i → i < l.length → i ≠ j →
      cmp (pr (l.getD ((i - 1) / 2) d)) (pr (l.getD i d)) = false) ∧
  (0 < j → ∀ i, 0 < i → i < l.length → (i - 1) / 2 = j →
      cmp (pr (l.getD ((j - 1) / 2) d)) (pr (l.getD i d)) = false)

end HeapCore

/-! ## The `tools` package priority queue

From the end of `breachDepressions.go`: payloads are `gridCell` values,
priorities are `int64`, and `swim`/`sink` compare with `>`, so `Pop`
returns a least-priority item. -/

namespace Tools

structure gridCell where
  row : ℤ
  column : ℤ
  flatIndex : ℤ
deriving DecidableEq, Repr

def newGridCell (r c f : ℤ) : gridCell := ⟨r, c, f⟩

structure item where
  value : gridCell
  priority : ℤ
deriving DecidableEq, Repr

def ditem : item := ⟨⟨0, 0, 0⟩, 0⟩

/-- The comparison used by the `tools` heap: `a > b`. -/
def gtb (a b : ℤ) : Bool := decide (a > b)

structure PQueue where
  items : List item
deriving DecidableEq, Repr

def NewPQueue : PQueue := ⟨[]⟩

def PQueue.Len (pq : PQueue) : ℕ := pq.items.length

/-- `Push`: append the new item and `swim` it from the last slot. -/
def PQueue.Push (pq : PQueue) (value : gridCell) (priority : ℤ) : PQueue :=
  ⟨HeapCore.swim ditem item.priority gtb (pq.items ++ [⟨value, priority⟩]) pq.items.length⟩

/-- `Pop`: return `items[1].value`; swap the root with the last slot, drop
the last slot, and `sink` the root.  Go panics on an empty queue (index 1
of a length-1 slice); this is modelled by `none`. -/
def PQueue.Pop (pq : PQueue) : Option (gridCell × PQueue) :=
  match pq.items with
  | [] => none
  | top :: _ =>
      some (top.value,
        ⟨HeapCore.sink ditem item.priority gtb
          ((HeapCore.swapL ditem pq.items 0 (pq.items.length - 1)).take (pq.items.length - 1))
          0⟩)

/-- A sequence of pushes starting from a given queue. -/
def pushList (pq : PQueue) : List (gridCell × ℤ) → PQueue
  | [] => pq
  | (v, p) :: rest => pushList (pq.Push v p) rest

end Tools

/-! ## The `structures` package priority queue

From `structures/priorityqueue.go`.  `NewPQueue` stores a comparator
chosen from the `PQType` argument (`max(i,j) = i < j` for `MAXPQ`,
`min(i,j) = i > j` for `MINPQ`), but `swim` and `sink` compare priorities
with the fixed `<` and never consult the stored comparator. -/

namespace Structures

inductive PQType where
  | MAXPQ
  | MINPQ
deriving DecidableEq

structure item (α : Type) where
  value : α
  priority : ℤ

/-- `func max(i, j int) bool { return i < j }` -/
def maxCmp (i j : ℤ) : Bool := decide (i < j)

/-- `func min(i, j int) bool { return i > j }` -/
def minCmp (i j : ℤ) : Bool := decide (i > j)

/-- The comparison hard-wired into `swim`/`sink`: `a < b`. -/
def ltb (a b : ℤ) : Bool := decide (a < b)

structure PQueue (α : Type) where
  items : List (item α)
  comparator : ℤ → ℤ → Bool

def NewPQueue (α : Type) (pqType : PQType) : PQueue α :=
  ⟨[], if pqType = PQType.MAXPQ then maxCmp else minCmp⟩

def ditem' {α : Type} [Inhabited α] : item α := ⟨default, 0⟩

def PQueue.Len {α : Type} (pq : PQueue α) : ℕ := pq.items.length

def PQueue.Push {α : Type} [Inhabited α] (pq : PQueue α) (value : α) (priority : ℤ) :
    PQueue α :=
  ⟨HeapCore.swim ditem' (item.priority) ltb (pq.items ++ [⟨value, priority⟩]) pq.items.length,
    pq.comparator⟩

/-- `Pop` returns `nil` on an empty queue, otherwise `items[1].value`
after the swap / truncate / `sink(1)` sequence of the source. -/
def PQueue.Pop {α : Type} [Inhabited α] (pq : PQueue α) : Option (α × PQueue α) :=
  match pq.items with
  | [] => none
  | top :: _ =>
      some (top.value,
        ⟨HeapCore.sink ditem' (item.priority) ltb
          ((HeapCore.swapL ditem' pq.items 0 (pq.items.length - 1)).take (pq.items.length - 1))
          0,
          pq.comparator⟩)

def pushList {α : Type} [Inhabited α] (pq : PQueue α) : List (α × ℤ) → PQueue α
  | [] => pq
  | (v, p) :: rest => pushList (pq.Push v p) rest

end Structures

/-! ## The elevation multiplier

All three depression tools compute
`elevDigits := len(strconv.Itoa(int(dem.GetMaximumValue() - minVal)))` and
`elevMultiplier := math.Pow(10, float64(8-elevDigits))`. -/

def elevMultiplierOf (dem : Raster) : ℚ :=
  qpow10 ((8 : ℤ) - (itoaLen (f2i (dem.GetMaximumValue - dem.GetMinimumValue)) : ℤ))

/-! ## FillDepressions: edge-cell initialisation (claim C3)

From `FillDepressions.Run`, the first scan.  For each valid cell the inner
loop runs `n = 0 .. 7` with
`zN = dem.Value(row+dY[n], col+dX[n]); if zN == nodata { isEdgeCell = true }`
(there is no `break`), so after the loop the variable `zN` holds the value
read at `n = 7`, i.e. the north neighbour.  An edge cell is then pushed
with `p = int64(int64(zN*elevMultiplier) * 100000)` — the priority is
computed from the leftover `zN`, not from the cell's own elevation `z`. -/

namespace FillDep

/-- The neighbour scan of the initialisation loop: returns
`(isEdgeCell, zN)` where `zN` is the last value assigned to the Go
variable `zN` (the read at `n = 7`). -/
def initScan (dem : Raster) (row col : ℤ) : Bool × ℚ :=
  (List.range 8).foldl
    (fun acc n =>
      (acc.1 || decide (dem.Value (row + dY n) (col + dX n) = dem.NoDataValue),
        dem.Value (row + dY n) (col + dX n)))
    (false, 0)

/-- The priority pushed for an edge cell:
`int64(int64(zN*elevMultiplier) * 100000)`. -/
def initPriority (dem : Raster) (row col : ℤ) : ℤ :=
  f2i ((initScan dem row col).2 * elevMultiplierOf dem) * 100000

/-- The priority the claim describes: derived from the cell's own
elevation, `int64(z*elevMultiplier)*TIE_MULT` (this is what the
matching initialisation of `BreachDepressions.Run` pushes). -/
def specInitPriority (dem : Raster) (row col : ℤ) : ℤ :=
  f2i (dem.Value row col * elevMultiplierOf dem) * 100000

/-- A 1×2 DEM `[[5, 9]]` with nodata −9999. -/
def demC3 : Raster :=
  ⟨1, 2, -9999, fun r c => if r = 0 ∧ c = 0 then 5 else if r = 0 ∧ c = 1 then 9 else 0⟩

end FillDep

/-! ## DeviationFromMean: integral-image window (claim C8)

From `DeviationFromMean.Run`: the integral count image `IN` is the
double-cumulative count of valid cells, and the box corners for cell
`(row, col)` and radius `R = neighbourhoodSize` are
`y1 = row - R`, `y2 = row + R`, `x1 = col - R`, `x2 = col + R`, each
clamped by `if v < 0 { v = 0 }; if v >= bound { v = bound - 1 }`, after
which `N = IN[y2][x2] + IN[y1][x1] - IN[y1][x2] - IN[y2][x1]`.
`DeviationFromMeanTraditional.Run` computes the same statistic directly
over the full window `i = y1 .. y2`, `j = x1 .. x2` (unclamped reads,
out-of-grid returning nodata). -/

namespace DevMean

/-- Running count of valid cells along row `row` up to column `col`
(the variable `sumN` of the integral-image pass). -/
def rowCountN (rin : Raster) (row : ℤ) : ℕ → ℤ
  | 0 => if rin.Value row 0 = rin.NoDataValue then 0 else 1
  | c + 1 => rowCountN rin row c + (if rin.Value row (c + 1 : ℕ) = rin.NoDataValue then 0 else 1)

/-- `IN[row][col] = sumN + IN[row-1][col]` (with `IN[0][col] = sumN`). -/
def IN (rin : Raster) : ℕ → ℕ → ℤ
  | 0, col => rowCountN rin 0 col
  | r + 1, col => rowCountN rin (r + 1 : ℕ) col + IN rin r col

/-- The clamp applied to every corner: `if v < 0 { v = 0 };
if v >= bound { v = bound - 1 }`. -/
def clampIdx (v bound : ℤ) : ℤ :=
  if (if v < 0 then 0 else v) ≥ bound then bound - 1 else (if v < 0 then 0 else v)

/-- Corner `x1 = col - neighbourhoodSize`, clamped (source lines 275–281). -/
def cornerX1 (rin : Raster) (R col : ℤ) : ℤ := clampIdx (col - R) rin.Columns

def cornerX2 (rin : Raster) (R col : ℤ) : ℤ := clampIdx (col + R) rin.Columns

def cornerY1 (rin : Raster) (R row : ℤ) : ℤ := clampIdx (row - R) rin.Rows

def cornerY2 (rin : Raster) (R row : ℤ) : ℤ := clampIdx (row + R) rin.Rows

/-- The corner the claim (and the spec) describes: `col - R - 1`, clamped. -/
def specX1 (rin : Raster) (R col : ℤ) : ℤ := clampIdx (col - R - 1) rin.Columns

def specY1 (rin : Raster) (R row : ℤ) : ℤ := clampIdx (row - R - 1) rin.Rows

/-- `N = IN[y2][x2] + IN[y1][x1] - IN[y1][x2] - IN[y2][x1]`. -/
def Nbox (rin : Raster) (R row col : ℤ) : ℤ :=
  IN rin (cornerY2 rin R row).toNat (cornerX2 rin R col).toNat +
    IN rin (cornerY1 rin R row).toNat (cornerX1 rin R col).toNat -
    IN rin (cornerY1 rin R row).toNat (cornerX2 rin R col).toNat -
    IN rin (cornerY2 rin R row).toNat (cornerX1 rin R col).toNat

/-- The count `n` of the traditional (direct) method: the number of valid
reads in the window `i = row-R .. row+R`, `j = col-R .. col+R`. -/
def tradN (rin : Raster) (R row col : ℤ) : ℤ :=
  ((List.range (2 * R + 1).toNat).flatMap
      (fun a => (List.range (2 * R + 1).toNat).map
        (fun b => (row - R + (a : ℤ), col - R + (b : ℤ))))).foldl
    (fun n ij => if rin.Value ij.1 ij.2 ≠ rin.NoDataValue then n + 1 else n) 0

/-- A 4×4 raster whose cells are all valid (value 1, nodata −9999). -/
def rin4 : Raster := ⟨4, 4, -9999, fun _ _ => 1⟩

end DevMean

/-! ## BreachStreams: priority keys (claim C9)

From `BreachStreams.Run`: a stream cell is pushed with
`p = int64(int64(z*elevMultiplier)*10000 + (int64(n) % 10000))` and a
non-stream cell with `p = int64(10^13 + int64(z*elevMultiplier)*10000 +
(int64(n) % 10000))`; the initialisation pushes are the `n = 0` case. -/

namespace BreachStr

def streamKey (elevMultiplier : ℚ) (z : ℚ) (n : ℤ) : ℤ :=
  f2i (z * elevMultiplier) * 10000 + n % 10000

def nonStreamKey (elevMultiplier : ℚ) (z : ℚ) (n : ℤ) : ℤ :=
  10000000000000 + f2i (z * elevMultiplier) * 10000 + n % 10000

end BreachStr

/-! ## D8 flow accumulation (claims C6, C7)

From `D8FlowAccumulation.Run`.  The pointer pass writes, for each cell,
the direction (1..8) of the steepest strictly-descending neighbour (0 when
there is none); since each cell's entry depends only on the DEM, the
sequential array fill is modelled pointwise by `flowdirAt`, and the
inflow-counter array it produces by the pointwise count `indeg`.  The
main pass is a FIFO loop seeded with the no-inflow valid cells; the output
raster is created with `InitialValue 1`.

`diagDist = math.Sqrt(cellSizeX² + cellSizeY²)` is irrational, so it is
passed as a separate parameter `dd` (the claims hold for every positive
value). -/

namespace D8

/-- `dist = {diagDist, cellSizeX, diagDist, cellSizeY, ...}`. -/
def dist (cX cY dd : ℚ) (n : ℕ) : ℚ := [dd, cX, dd, cY, dd, cX, dd, cY].getD n 0

/-- `slope = (z - zN) / dist[n]`. -/
def slopeAt (dem : Raster) (cX cY dd : ℚ) (row col : ℤ) (n : ℕ) : ℚ :=
  (dem.Value row col - dem.Value (row + dY n) (col + dX n)) / dist cX cY dd n

/-- The inner scan of the pointer pass: fold over `n = 0 .. 7` carrying
`(maxSlope, dir)`, with `maxSlope = none` standing for the initial
`math.Inf(-1)`; a valid neighbour with `slope > maxSlope` updates both. -/
def fdScan (dem : Raster) (cX cY dd : ℚ) (row col : ℤ) : Option ℚ × ℕ :=
  (List.range 8).foldl
    (fun acc n =>
      if dem.Value (row + dY n) (col + dX n) ≠ dem.NoDataValue then
        match acc.1 with
        | none => (some (slopeAt dem cX cY dd row col n), n + 1)
        | some m =>
            if slopeAt dem cX cY dd row col n > m then
              (some (slopeAt dem cX cY dd row col n), n + 1)
            else acc
      else acc)
    (none, 0)

/-- `flowdir[row+1][col+1]`: the direction stored by the pointer pass
(`dir` if `maxSlope > 0`, else 0; 0 for nodata cells, and for the border
ring, whose out-of-range `Value` reads return nodata). -/
def flowdirAt (dem : Raster) (cX cY dd : ℚ) (row col : ℤ) : ℕ :=
  if dem.Value row col = dem.NoDataValue then 0
  else
    match fdScan dem cX cY dd row col with
    | (none, _) => 0
    | (some m, dir) => if m > 0 then dir else 0

/-- The downslope receiver of a cell, when its direction is non-zero. -/
def recvOf (dem : Raster) (cX cY dd : ℚ) (row col : ℤ) : Option (ℤ × ℤ) :=
  if flowdirAt dem cX cY dd row col > 0 then
    some (row + dY (flowdirAt dem cX cY dd row col - 1),
      col + dX (flowdirAt dem cX cY dd row col - 1))
  else none

/-- `numInflowing[r+1][c+1]` after the pointer pass: the number of cells
whose receiver is `(r, c)` (each cell with `dir > 0` increments its
receiver's counter exactly once). -/
def indeg (dem : Raster) (cX cY dd : ℚ) (r c : ℤ) : ℤ :=
  (cellList dem.Rows dem.Columns).foldl
    (fun k p => if recvOf dem cX cY dd p.1 p.2 = some (r, c) then k + 1 else k) 0

/-- The seeding pass: valid cells with `numInflowing == 0`, pushed in
row-major order. -/
def seeds (dem : Raster) (cX cY dd : ℚ) : List (ℤ × ℤ) :=
  (cellList dem.Rows dem.Columns).filter
    (fun p => dem.Value p.1 p.2 ≠ dem.NoDataValue ∧ indeg dem cX cY dd p.1 p.2 = 0)

/-- In-range test of the output raster (`rout.Value` / `rout.SetValue`). -/
def inRange (dem : Raster) (row col : ℤ) : Prop :=
  0 ≤ col ∧ col < dem.Columns ∧ 0 ≤ row ∧ row < dem.Rows

instance (dem : Raster) (row col : ℤ) : Decidable (inRange dem row col) := by
  unfold inRange; infer_instance

/-- `rout.Value(row, col)` over the mutable accumulation grid. -/
def routValue (dem : Raster) (acc : ℤ → ℤ → ℚ) (row col : ℤ) : ℚ :=
  if inRange dem row col then acc row col else dem.NoDataValue

/-- `rout.SetValue(row, col, v)` (silently ignores out-of-range writes). -/
def routSet (dem : Raster) (acc : ℤ → ℤ → ℚ) (row col : ℤ) (v : ℚ) : ℤ → ℤ → ℚ :=
  if inRange dem row col then upd acc row col v else acc

structure D8State where
  accum : ℤ → ℤ → ℚ
  inflow : ℤ → ℤ → ℤ
  queue : List (ℤ × ℤ)
  popTrace : List (ℤ × ℤ)

/-- The body of one main-loop iteration, after `(row, col)` has been
popped: read the cell's accumulation, and when it has a downslope
direction add it to the receiver, decrement the receiver's inflow
counter, and enqueue the receiver when the counter reaches 0. -/
def d8Step (dem : Raster) (cX cY dd : ℚ) (st : D8State) (rc : ℤ × ℤ) : D8State :=
  if flowdirAt dem cX cY dd rc.1 rc.2 > 0 then
    { accum :=
        routSet dem st.accum
          (rc.1 + dY (flowdirAt dem cX cY dd rc.1 rc.2 - 1))
          (rc.2 + dX (flowdirAt dem cX cY dd rc.1 rc.2 - 1))
          (routValue dem st.accum
              (rc.1 + dY (flowdirAt dem cX cY dd rc.1 rc.2 - 1))
              (rc.2 + dX (flowdirAt dem cX cY dd rc.1 rc.2 - 1)) +
            routValue dem st.accum rc.1 rc.2),
      inflow :=
        upd st.inflow
          (rc.1 + dY (flowdirAt dem cX cY dd rc.1 rc.2 - 1))
          (rc.2 + dX (flowdirAt dem cX cY dd rc.1 rc.2 - 1))
          (st.inflow (rc.1 + dY (flowdirAt dem cX cY dd rc.1 rc.2 - 1))
              (rc.2 + dX (flowdirAt dem cX cY dd rc.1 rc.2 - 1)) - 1),
      queue :=
        if st.inflow (rc.1 + dY (flowdirAt dem cX cY dd rc.1 rc.2 - 1))
              (rc.2 + dX (flowdirAt dem cX cY dd rc.1 rc.2 - 1)) - 1 = 0 then
          st.queue ++
            [(rc.1 + dY (flowdirAt dem cX cY dd rc.1 rc.2 - 1),
              rc.2 + dX (flowdirAt dem cX cY dd rc.1 rc.2 - 1))]
        else st.queue,
      popTrace := st.popTrace }
  else st

/-- The FIFO main loop `for fq.count > 0`, with fuel; `none` is fuel
exhaustion.  Each popped cell is recorded in `popTrace`. -/
def d8Loop (dem : Raster) (cX cY dd : ℚ) : ℕ → D8State → Option D8State
  | 0, st => if st.queue = [] then some st else none
  | fuel + 1, st =>
      match st.queue with
      | [] => some st
      | rc :: rest =>
          d8Loop dem cX cY dd fuel
            (d8Step dem cX cY dd
              { st with queue := rest, popTrace := st.popTrace ++ [rc] } rc)

def d8InitState (dem : Raster) (cX cY dd : ℚ) : D8State :=
  ⟨fun _ _ => 1, fun r c => indeg dem cX cY dd r c, seeds dem cX cY dd, []⟩

/-- The whole accumulation run (pointer pass, seeding, FIFO main loop),
with the log-transform option unset. -/
def d8Run (dem : Raster) (cX cY dd : ℚ) : Option D8State :=
  d8Loop dem cX cY dd ((dem.Rows * dem.Columns).toNat + 1) (d8InitState dem cX cY dd)

/-- The staircase DEM of the spec scenario: 1×5, values `[5,4,3,2,1]`,
nodata −9999. -/
def dem5 : Raster :=
  ⟨1, 5, -9999, fun _ c =>
    if c = 0 then 5 else if c = 1 then 4 else if c = 2 then 3 else if c = 3 then 2 else 1⟩

/-- A valid cell of the DEM: its `Value` read is not nodata (out-of-range
reads return nodata, so a valid cell is also in range). -/
def valid (dem : Raster) (p : ℤ × ℤ) : Prop :=
  dem.Value p.1 p.2 ≠ dem.NoDataValue

instance (dem : Raster) (p : ℤ × ℤ) : Decidable (valid dem p) := by
  unfold valid
  infer_instance

/-- How many cells of `l` have `p` as their downslope receiver. -/
def inCount (dem : Raster) (cX cY dd : ℚ) (p : ℤ × ℤ) (l : List (ℤ × ℤ)) : ℕ :=
  l.countP (fun q => decide (recvOf dem cX cY dd q.1 q.2 = some p))

/-- The Kahn invariant of the FIFO main loop: each inflow counter equals
its pointer-pass value minus the number of already-popped cells draining
into it; no cell is recorded or queued twice; recorded and queued cells
are valid; and a valid cell has been seen (popped or queued) exactly when
its counter has reached 0. -/
def kahnInv (dem : Raster) (cX cY dd : ℚ) (st : D8State) : Prop :=
  (∀ p : ℤ × ℤ, st.inflow p.1 p.2 =
      indeg dem cX cY dd p.1 p.2 - (inCount dem cX cY dd p st.popTrace : ℤ)) ∧
  (st.popTrace ++ st.queue).Nodup ∧
  (∀ p ∈ st.popTrace ++ st.queue, valid dem p) ∧
  (∀ p : ℤ × ℤ, valid dem p → (p ∈ st.popTrace ++ st.queue ↔ st.inflow p.1 p.2 = 0))

end D8

/-! ## BreachDepressions (claims C1, C4, C5)

From `BreachDepressions.Run`.  The tool works on a bordered `(rows+2) ×
(columns+2)` copy of the DEM (`output`, `pits`, `inQueue`, `flowdir`);
bordered cell `(row+1, col+1)` corresponds to DEM cell `(row, col)`.
`SMALL_NUM := 1/elevMultiplier*10`.  Progress reporting and the
`numSolvedCells` counter that only feeds it are not modelled.  A `Pop` on
an empty queue (a Go panic) yields `stuckPop`; running out of fuel in any
loop yields `fuelOut`. -/

namespace Breach

structure Params where
  maxDepth : ℚ
  maxLength : ℤ
  constrainedBreaching : Bool
  postBreachFilling : Bool

/-- `maxLengthOrDepthUsed := this.maxDepth > 0 || this.maxLength > 0`. -/
def maxLengthOrDepthUsed (p : Params) : Bool :=
  decide (p.maxDepth > 0) || decide (p.maxLength > 0)

/-- `if maxLengthOrDepthUsed && this.maxDepth == -1 { this.maxDepth = math.MaxFloat64 }`. -/
def adjMaxDepth (p : Params) : ℚ :=
  if maxLengthOrDepthUsed p = true ∧ p.maxDepth = -1 then maxFloat64 else p.maxDepth

/-- `if maxLengthOrDepthUsed && this.maxLength == -1 { this.maxLength = math.MaxInt32 }`. -/
def adjMaxLength (p : Params) : ℤ :=
  if maxLengthOrDepthUsed p = true ∧ p.maxLength = -1 then maxInt32 else p.maxLength

/-- `performConstrainedBreaching`, after the
`if !maxLengthOrDepthUsed && performConstrainedBreaching { ... = false }`
adjustment. -/
def performConstrained (p : Params) : Bool :=
  p.constrainedBreaching && maxLengthOrDepthUsed p

/-- `SMALL_NUM := 1 / elevMultiplier * 10`. -/
def smallNumOf (dem : Raster) : ℚ := 1 / elevMultiplierOf dem * 10

/-- `floodorder[floodOrderTail] = row*columns + col` (bordered
coordinates, unbordered stride). -/
def floodOrderEncode (columns row col : ℤ) : ℤ := row * columns + col

/-- The decode in the filling pass: `row = floodorder[c] / columns;
col = floodorder[c] % columns`. -/
def floodOrderDecode (columns q : ℤ) : ℤ × ℤ := (q / columns, q % columns)

@[ext]
structure BState where
  output : ℤ → ℤ → ℚ
  pits : ℤ → ℤ → Bool
  inQueue : ℤ → ℤ → Bool
  flowdir : ℤ → ℤ → ℕ
  pq : Tools.PQueue
  numPits : ℤ
  numPitsSolved : ℤ
  numValidCells : ℤ
  needsFilling : Bool
  numUnsolvedPits : ℤ
  floodorder : List ℤ

/-- The neighbour scan of the initialisation loop (`for n = 0; n < 8;
n++`): a valid strictly-lower neighbour clears `isPit` and breaks out of
the loop (so `isEdgeCell` and `lowestNeighbour` keep whatever the earlier
iterations accumulated); a nodata read sets `isEdgeCell`; otherwise the
lowest-neighbour accumulator is updated (`none` stands for the initial
`math.Inf(1)`).  Returns `(isPit, isEdgeCell, lowestNeighbour)`. -/
def initScanGo (dem : Raster) (z : ℚ) (row col : ℤ) :
    List ℕ → Bool → Option ℚ → Bool × Bool × Option ℚ
  | [], isEdge, lowest => (true, isEdge, lowest)
  | n :: rest, isEdge, lowest =>
      if dem.Value (row + dY n) (col + dX n) ≠ dem.NoDataValue ∧
          dem.Value (row + dY n) (col + dX n) < z then
        (false, isEdge, lowest)
      else if dem.Value (row + dY n) (col + dX n) = dem.NoDataValue then
        initScanGo dem z row col rest true lowest
      else
        initScanGo dem z row col rest isEdge
          (match lowest with
           | none => some (dem.Value (row + dY n) (col + dX n))
           | some m =>
               if dem.Value (row + dY n) (col + dX n) < m then
                 some (dem.Value (row + dY n) (col + dX n))
               else some m)

def initScanCell (dem : Raster) (row col : ℤ) : Bool × Bool × Option ℚ :=
  initScanGo dem (dem.Value row col) row col (List.range 8) false none

/-- `output[row+1][col+1] = z; flowdir[row+1][col+1] = 0`. -/
def writeBase (dem : Raster) (st : BState) (rc : ℤ × ℤ) : BState :=
  { st with
    output := upd st.output (rc.1 + 1) (rc.2 + 1) (dem.Value rc.1 rc.2),
    flowdir := upd st.flowdir (rc.1 + 1) (rc.2 + 1) 0 }

/-- Push an edge cell at initialisation:
`gc = newGridCell(row+1, col+1, 0); p = int64(int64(z*elevMultiplier) *
100000); pq.Push(gc, p); inQueue[row+1][col+1] = true`. -/
def pushEdge (dem : Raster) (mult : ℚ) (st : BState) (rc : ℤ × ℤ) : BState :=
  { st with
    pq := st.pq.Push (Tools.newGridCell (rc.1 + 1) (rc.2 + 1) 0)
      (f2i (dem.Value rc.1 rc.2 * mult) * 100000),
    inQueue := upd st.inQueue (rc.1 + 1) (rc.2 + 1) true }

/-- `pits[row+1][col+1] = true; numPits++` (interior pits only). -/
def markPit (st : BState) (rc : ℤ × ℤ) : BState :=
  { st with
    pits := upd st.pits (rc.1 + 1) (rc.2 + 1) true,
    numPits := st.numPits + 1 }

/-- The pit pre-raise: `if lowestNeighbour != POS_INF {
output[row+1][col+1] = lowestNeighbour - SMALL_NUM }`. -/
def preRaise (s : ℚ) (st : BState) (rc : ℤ × ℤ) : Option ℚ → BState
  | none => st
  | some lo => { st with output := upd st.output (rc.1 + 1) (rc.2 + 1) (lo - s) }

/-- One cell of the initialisation scan. -/
def initCell (dem : Raster) (mult s : ℚ) (st : BState) (rc : ℤ × ℤ) : BState :=
  if dem.Value rc.1 rc.2 ≠ dem.NoDataValue then
    match initScanCell dem rc.1 rc.2 with
    | (isPit, isEdge, lowest) =>
        (fun st2 => { st2 with numValidCells := st2.numValidCells + 1 })
          (if isPit then
            preRaise s
              (if isEdge then
                (if isEdge then pushEdge dem mult (writeBase dem st rc) rc
                 else writeBase dem st rc)
               else
                markPit
                  (if isEdge then pushEdge dem mult (writeBase dem st rc) rc
                   else writeBase dem st rc) rc)
              rc lowest
          else
            (if isEdge then pushEdge dem mult (writeBase dem st rc) rc
             else writeBase dem st rc))
  else writeBase dem st rc

/-- The border ring: `output` is nodata and `flowdir` is 0 on rows `0`,
`rows+1` and columns `0`, `columns+1` (the two ring loops of the source,
expressed as a wrapper over the grids). -/
def applyBorder (dem : Raster) (st : BState) : BState :=
  { st with
    output := fun r c =>
      if r = 0 ∨ r = dem.Rows + 1 ∨ c = 0 ∨ c = dem.Columns + 1 then dem.NoDataValue
      else st.output r c,
    flowdir := fun r c =>
      if r = 0 ∨ r = dem.Rows + 1 ∨ c = 0 ∨ c = dem.Columns + 1 then 0
      else st.flowdir r c }

def initState : BState :=
  ⟨fun _ _ => 0, fun _ _ => false, fun _ _ => false, fun _ _ => 0,
    Tools.NewPQueue, 0, 0, 0, false, 0, []⟩

def initAll (dem : Raster) (mult s : ℚ) : BState :=
  applyBorder dem ((cellList dem.Rows dem.Columns).foldl (initCell dem mult s) initState)

/-- The breach trace shared by the complete and the selective branch:
starting *at* the just-touched pit with `zTest` equal to its output, walk
backwards along `flowdir`; each step first decrements `zTest` by
`SMALL_NUM`, then moves to the parent; a parent that is already `≤ zTest`
or nodata stops the walk, otherwise the parent's output is overwritten
with `zTest`; a cell with `flowdir = 0` stops the walk. -/
def traceB (nodata s : ℚ) (fd : ℤ → ℤ → ℕ) :
    ℕ → (ℤ → ℤ → ℚ) → ℚ → ℤ → ℤ → Option (ℤ → ℤ → ℚ)
  | 0, _, _, _, _ => none
  | fuel + 1, output, zTest, r, c =>
      if fd r c > 0 then
        if output (r + dY (fd r c - 1)) (c + dX (fd r c - 1)) ≤ zTest - s ∨
            output (r + dY (fd r c - 1)) (c + dX (fd r c - 1)) = nodata then
          some output
        else
          traceB nodata s fd fuel
            (upd output (r + dY (fd r c - 1)) (c + dX (fd r c - 1)) (zTest - s))
            (zTest - s) (r + dY (fd r c - 1)) (c + dX (fd r c - 1))
      else some output

/-- Push a just-touched neighbour: `n = 0` (`flatindex + 1` for a pit);
`p = int64(int64(zN*elevMultiplier)*100000 + (int64(n) % 100000))`. -/
def pushNbr (mult : ℚ) (rowN colN : ℤ) (zN : ℚ) (n : ℤ) (st : BState) : BState :=
  { st with
    pq := st.pq.Push (Tools.newGridCell rowN colN n) (f2i (zN * mult) * 100000 + n % 100000),
    inQueue := upd st.inQueue rowN colN true }

/-- One neighbour of the complete-breaching main loop (the body of
`for i = 0; i < 8; i++` in the `!maxLengthOrDepthUsed` branch). -/
def processNbrB (nodata mult s : ℚ) (traceFuel : ℕ) (row col flatindex : ℤ)
    (st : BState) (i : ℕ) : Option BState :=
  if st.output (row + dY i) (col + dX i) ≠ nodata ∧
      st.inQueue (row + dY i) (col + dX i) = false then
    if st.pits (row + dY i) (col + dX i) then
      match traceB nodata s (upd st.flowdir (row + dY i) (col + dX i) (backLink i)) traceFuel
          st.output (st.output (row + dY i) (col + dX i)) (row + dY i) (col + dX i) with
      | none => none
      | some out' =>
          some (pushNbr mult (row + dY i) (col + dX i)
            (st.output (row + dY i) (col + dX i)) (flatindex + 1)
            { st with
              flowdir := upd st.flowdir (row + dY i) (col + dX i) (backLink i),
              output := out',
              numPitsSolved := st.numPitsSolved + 1 })
    else
      some (pushNbr mult (row + dY i) (col + dX i)
        (st.output (row + dY i) (col + dX i)) 0
        { st with flowdir := upd st.flowdir (row + dY i) (col + dX i) (backLink i) })
  else some st

def foldNbrs (f : BState → ℕ → Option BState) (st : BState) : Option BState :=
  (List.range 8).foldl
    (fun acc i => match acc with | none => none | some s' => f s' i) (some st)

inductive BreachResult where
  | stuckPop
  | fuelOut
  | ok (st : BState)

/-- The complete-breaching main loop: `for numPitsSolved < numPits {
gc = pq.Pop(); ... }`. -/
def loopB (nodata mult s : ℚ) (traceFuel : ℕ) : ℕ → BState → BreachResult
  | 0, st => if st.numPitsSolved < st.numPits then .fuelOut else .ok st
  | fuel + 1, st =>
      if st.numPitsSolved < st.numPits then
        match st.pq.Pop with
        | none => .stuckPop
        | some (gc, pq') =>
            match foldNbrs
                (processNbrB nodata mult s traceFuel gc.row gc.column gc.flatIndex)
                { st with pq := pq' } with
            | none => .fuelOut
            | some st' => loopB nodata mult s traceFuel fuel st'
      else .ok st

/-- The dry-run trace of the selective branch: measures `numCellsInPath`
and `maxPathBreachDepth` (depths are measured against the *original* DEM,
`dem.Value(r-1, c-1)` in bordered coordinates) and stops as soon as a
constraint is exceeded.  Returns the pair of measurements. -/
def dryTraceS (dem : Raster) (nodata s : ℚ) (maxL : ℤ) (maxD : ℚ) (fd : ℤ → ℤ → ℕ) :
    ℕ → (ℤ → ℤ → ℚ) → ℚ → ℤ → ℤ → ℤ → ℚ → Option (ℤ × ℚ)
  | 0, _, _, _, _, _, _ => none
  | fuel + 1, output, zTest, r, c, ncip, mpbd =>
      if fd r c > 0 then
        if output (r + dY (fd r c - 1)) (c + dX (fd r c - 1)) ≤ zTest - s ∨
            output (r + dY (fd r c - 1)) (c + dX (fd r c - 1)) = nodata then
          some (ncip + 1, mpbd)
        else
          if ncip + 1 > maxL ∨
              (if dem.Value (r + dY (fd r c - 1) - 1) (c + dX (fd r c - 1) - 1) - (zTest - s) >
                  mpbd then
                dem.Value (r + dY (fd r c - 1) - 1) (c + dX (fd r c - 1) - 1) - (zTest - s)
              else mpbd) > maxD then
            some (ncip + 1,
              if dem.Value (r + dY (fd r c - 1) - 1) (c + dX (fd r c - 1) - 1) - (zTest - s) >
                  mpbd then
                dem.Value (r + dY (fd r c - 1) - 1) (c + dX (fd r c - 1) - 1) - (zTest - s)
              else mpbd)
          else
            dryTraceS dem nodata s maxL maxD fd fuel output (zTest - s)
              (r + dY (fd r c - 1)) (c + dX (fd r c - 1)) (ncip + 1)
              (if dem.Value (r + dY (fd r c - 1) - 1) (c + dX (fd r c - 1) - 1) - (zTest - s) >
                  mpbd then
                dem.Value (r + dY (fd r c - 1) - 1) (c + dX (fd r c - 1) - 1) - (zTest - s)
              else mpbd)
      else some (ncip + 1, mpbd)

/-- One neighbour of the selective-breaching main loop. -/
def processNbrS (dem : Raster) (nodata mult s : ℚ) (maxL : ℤ) (maxD : ℚ)
    (traceFuel : ℕ) (row col flatindex : ℤ) (st : BState) (i : ℕ) : Option BState :=
  if st.output (row + dY i) (col + dX i) ≠ nodata ∧
      st.inQueue (row + dY i) (col + dX i) = false then
    if st.pits (row + dY i) (col + dX i) then
      match dryTraceS dem nodata s maxL maxD
          (upd st.flowdir (row + dY i) (col + dX i) (backLink i)) traceFuel
          st.output (st.output (row + dY i) (col + dX i)) (row + dY i) (col + dX i) 0 0 with
      | none => none
      | some (ncip, mpbd) =>
          if ncip ≤ maxL ∧ mpbd ≤ maxD then
            match traceB nodata s
                (upd st.flowdir (row + dY i) (col + dX i) (backLink i)) traceFuel
                st.output (st.output (row + dY i) (col + dX i)) (row + dY i) (col + dX i) with
            | none => none
            | some out' =>
                some (pushNbr mult (row + dY i) (col + dX i)
                  (st.output (row + dY i) (col + dX i)) (flatindex + 1)
                  { st with
                    flowdir := upd st.flowdir (row + dY i) (col + dX i) (backLink i),
                    output := out',
                    numPitsSolved := st.numPitsSolved + 1 })
          else
            some (pushNbr mult (row + dY i) (col + dX i)
              (st.output (row + dY i) (col + dX i)) (flatindex + 1)
              { st with
                flowdir := upd st.flowdir (row + dY i) (col + dX i) (backLink i),
                numPitsSolved := st.numPitsSolved + 1,
                needsFilling := true,
                numUnsolvedPits := st.numUnsolvedPits + 1 })
    else
      some (pushNbr mult (row + dY i) (col + dX i)
        (st.output (row + dY i) (col + dX i)) 0
        { st with flowdir := upd st.flowdir (row + dY i) (col + dX i) (backLink i) })
  else some st

/-- Record the popped cell in `floodorder` when post-breach filling is
requested. -/
def recordFlood (columns : ℤ) (postFill : Bool) (gc : Tools.gridCell) (st : BState) : BState :=
  if postFill then
    { st with floodorder := st.floodorder ++ [floodOrderEncode columns gc.row gc.column] }
  else st

/-- The selective-breaching main loop: `for pq.Len() > 0 { ... }`. -/
def loopS (dem : Raster) (nodata mult s : ℚ) (maxL : ℤ) (maxD : ℚ) (postFill : Bool)
    (traceFuel : ℕ) : ℕ → BState → BreachResult
  | 0, st => if 0 < st.pq.Len then .fuelOut else .ok st
  | fuel + 1, st =>
      if 0 < st.pq.Len then
        match st.pq.Pop with
        | none => .stuckPop
        | some (gc, pq') =>
            match foldNbrs
                (processNbrS dem nodata mult s maxL maxD traceFuel gc.row gc.column gc.flatIndex)
                (recordFlood dem.Columns postFill gc { st with pq := pq' }) with
            | none => .fuelOut
            | some st' => loopS dem nodata mult s maxL maxD postFill traceFuel fuel st'
      else .ok st

/-- The dry-run trace of the constrained branch: like `dryTraceS` but
without the constraint cut-offs, additionally tracking the height and
path-distance of the highest cell met (`outletHeight` starts at
`-math.MaxFloat64`; `outletDist` is the value of `numCellsInPath` before
its increment).  Returns `(numCellsInPath, maxPathBreachDepth,
outletHeight, outletDist)`. -/
def dryTraceC (dem : Raster) (nodata s : ℚ) (fd : ℤ → ℤ → ℕ) :
    ℕ → (ℤ → ℤ → ℚ) → ℚ → ℤ → ℤ → ℤ → ℚ → ℚ → ℤ → Option (ℤ × ℚ × ℚ × ℤ)
  | 0, _, _, _, _, _, _, _, _ => none
  | fuel + 1, output, zTest, r, c, ncip, mpbd, oh, od =>
      if fd r c > 0 then
        if output (r + dY (fd r c - 1)) (c + dX (fd r c - 1)) ≤ zTest - s ∨
            output (r + dY (fd r c - 1)) (c + dX (fd r c - 1)) = nodata then
          some (ncip + 1, mpbd, oh, od)
        else
          dryTraceC dem nodata s fd fuel output (zTest - s)
            (r + dY (fd r c - 1)) (c + dX (fd r c - 1)) (ncip + 1)
            (if dem.Value (r + dY (fd r c - 1) - 1) (c + dX (fd r c - 1) - 1) - (zTest - s) >
                mpbd then
              dem.Value (r + dY (fd r c - 1) - 1) (c + dX (fd r c - 1) - 1) - (zTest - s)
            else mpbd)
            (if dem.Value (r + dY (fd r c - 1) - 1) (c + dX (fd r c - 1) - 1) > oh then
              dem.Value (r + dY (fd r c - 1) - 1) (c + dX (fd r c - 1) - 1)
            else oh)
            (if dem.Value (r + dY (fd r c - 1) - 1) (c + dX (fd r c - 1) - 1) > oh then ncip
            else od)
      else some (ncip + 1, mpbd, oh, od)

/-- The walk that locates the outlet-relative target elevation in the
partial-lowering path: `for j = 0; j < targetDist; j++ { dir = flowdir;
if dir > 0 { move; zTest = output[r][c] } else { break } }`. -/
def walkOutlet (fd : ℤ → ℤ → ℕ) (output : ℤ → ℤ → ℚ) : ℕ → ℚ → ℤ → ℤ → ℚ
  | 0, zT, _, _ => zT
  | k + 1, zT, r, c =>
      if fd r c > 0 then
        walkOutlet fd output k (output (r + dY (fd r c - 1)) (c + dX (fd r c - 1)))
          (r + dY (fd r c - 1)) (c + dX (fd r c - 1))
      else zT

/-- The partial-lowering walk of the constrained branch: follow the path
for at most `targetDist` cells, stopping at a cell `≤ zN` or nodata, and
lower every cell whose output exceeds `zTest` down to `zTest`. -/
def lowerWalk (nodata : ℚ) (fd : ℤ → ℤ → ℕ) (zN zTest : ℚ) (targetDist : ℤ) :
    ℕ → (ℤ → ℤ → ℚ) → ℤ → ℤ → ℤ → Option (ℤ → ℤ → ℚ)
  | 0, _, _, _, _ => none
  | fuel + 1, output, r, c, ncip =>
      if fd r c > 0 then
        if output (r + dY (fd r c - 1)) (c + dX (fd r c - 1)) ≤ zN ∨
            output (r + dY (fd r c - 1)) (c + dX (fd r c - 1)) = nodata then
          some output
        else
          if ncip + 1 > targetDist then
            some (if output (r + dY (fd r c - 1)) (c + dX (fd r c - 1)) > zTest then
              upd output (r + dY (fd r c - 1)) (c + dX (fd r c - 1)) zTest
            else output)
          else
            lowerWalk nodata fd zN zTest targetDist fuel
              (if output (r + dY (fd r c - 1)) (c + dX (fd r c - 1)) > zTest then
                upd output (r + dY (fd r c - 1)) (c + dX (fd r c - 1)) zTest
              else output)
              (r + dY (fd r c - 1)) (c + dX (fd r c - 1)) (ncip + 1)
      else some output

/-- `targetDist` of the partial-lowering path when `numCellsInPath >
maxLength`: `maxLength` if `outletDist < maxLength/2`, else
`outletDist + maxLength/2`. -/
def targetDistOf (maxL : ℤ) (ncip od : ℤ) : ℤ :=
  if ncip > maxL then (if od < maxL / 2 then maxL else od + maxL / 2) else ncip

/-- The `zTest` used by the partial lowering: `outletHeight - maxDepth`,
replaced (when the path is over-long) by the output met `targetDist`
steps down the path, re-clamped to `outletHeight - maxDepth` when still
too deep. -/
def partialZTest (fd : ℤ → ℤ → ℕ) (output : ℤ → ℤ → ℚ) (maxL : ℤ) (maxD : ℚ)
    (oh : ℚ) (ncip od : ℤ) (rowN colN : ℤ) : ℚ :=
  if ncip > maxL then
    (if oh - walkOutlet fd output (targetDistOf maxL ncip od).toNat (oh - maxD) rowN colN >
        maxD then
      oh - maxD
    else walkOutlet fd output (targetDistOf maxL ncip od).toNat (oh - maxD) rowN colN)
  else oh - maxD

/-- One neighbour of the constrained-breaching main loop. -/
def processNbrC (dem : Raster) (nodata mult s : ℚ) (maxL : ℤ) (maxD : ℚ)
    (traceFuel : ℕ) (row col flatindex : ℤ) (st : BState) (i : ℕ) : Option BState :=
  if st.output (row + dY i) (col + dX i) ≠ nodata ∧
      st.inQueue (row + dY i) (col + dX i) = false then
    if st.pits (row + dY i) (col + dX i) then
      match dryTraceC dem nodata s
          (upd st.flowdir (row + dY i) (col + dX i) (backLink i)) traceFuel
          st.output (st.output (row + dY i) (col + dX i)) (row + dY i) (col + dX i)
          0 0 (-maxFloat64) 0 with
      | none => none
      | some (ncip, mpbd, oh, od) =>
          if ncip ≤ maxL ∧ mpbd ≤ maxD then
            match traceB nodata s
                (upd st.flowdir (row + dY i) (col + dX i) (backLink i)) traceFuel
                st.output (st.output (row + dY i) (col + dX i)) (row + dY i) (col + dX i) with
            | none => none
            | some out' =>
                some (pushNbr mult (row + dY i) (col + dX i)
                  (st.output (row + dY i) (col + dX i)) (flatindex + 1)
                  { st with
                    flowdir := upd st.flowdir (row + dY i) (col + dX i) (backLink i),
                    output := out',
                    numPitsSolved := st.numPitsSolved + 1 })
          else
            match lowerWalk nodata
                (upd st.flowdir (row + dY i) (col + dX i) (backLink i))
                (st.output (row + dY i) (col + dX i))
                (partialZTest (upd st.flowdir (row + dY i) (col + dX i) (backLink i))
                  st.output maxL maxD oh ncip od (row + dY i) (col + dX i))
                (targetDistOf maxL ncip od) traceFuel
                st.output (row + dY i) (col + dX i) 0 with
            | none => none
            | some out' =>
                some (pushNbr mult (row + dY i) (col + dX i)
                  (st.output (row + dY i) (col + dX i)) (flatindex + 1)
                  { st with
                    flowdir := upd st.flowdir (row + dY i) (col + dX i) (backLink i),
                    output := out',
                    numPitsSolved := st.numPitsSolved + 1,
                    needsFilling := true })
    else
      some (pushNbr mult (row + dY i) (col + dX i)
        (st.output (row + dY i) (col + dX i)) 0
        { st with flowdir := upd st.flowdir (row + dY i) (col + dX i) (backLink i) })
  else some st

/-- The constrained-breaching main loop: `for pq.Len() > 0 { ... }`. -/
def loopC (dem : Raster) (nodata mult s : ℚ) (maxL : ℤ) (maxD : ℚ) (postFill : Bool)
    (traceFuel : ℕ) : ℕ → BState → BreachResult
  | 0, st => if 0 < st.pq.Len then .fuelOut else .ok st
  | fuel + 1, st =>
      if 0 < st.pq.Len then
        match st.pq.Pop with
        | none => .stuckPop
        | some (gc, pq') =>
            match foldNbrs
                (processNbrC dem nodata mult s maxL maxD traceFuel gc.row gc.column gc.flatIndex)
                (recordFlood dem.Columns postFill gc { st with pq := pq' }) with
            | none => .fuelOut
            | some st' => loopC dem nodata mult s maxL maxD postFill traceFuel fuel st'
      else .ok st

/-- One entry of the post-breach filling pass: decode the recorded index,
and when the decoded cell has a flow direction and its parent is valid,
raise the cell to `parent + SMALL_NUM` when it is not already above it. -/
def fillCell (nodata s : ℚ) (fd : ℤ → ℤ → ℕ) (output : ℤ → ℤ → ℚ) (columns idx : ℤ) :
    ℤ → ℤ → ℚ :=
  if 0 ≤ (floodOrderDecode columns idx).1 ∧ 0 ≤ (floodOrderDecode columns idx).2 then
    if fd (floodOrderDecode columns idx).1 (floodOrderDecode columns idx).2 > 0 then
      if output
            ((floodOrderDecode columns idx).1 +
              dY (fd (floodOrderDecode columns idx).1 (floodOrderDecode columns idx).2 - 1))
            ((floodOrderDecode columns idx).2 +
              dX (fd (floodOrderDecode columns idx).1 (floodOrderDecode columns idx).2 - 1)) ≠
          nodata ∧
          output (floodOrderDecode columns idx).1 (floodOrderDecode columns idx).2 ≤
            output
                ((floodOrderDecode columns idx).1 +
                  dY (fd (floodOrderDecode columns idx).1
                    (floodOrderDecode columns idx).2 - 1))
                ((floodOrderDecode columns idx).2 +
                  dX (fd (floodOrderDecode columns idx).1
                    (floodOrderDecode columns idx).2 - 1)) +
              s then
        upd output (floodOrderDecode columns idx).1 (floodOrderDecode columns idx).2
          (output
              ((floodOrderDecode columns idx).1 +
                dY (fd (floodOrderDecode columns idx).1
                  (floodOrderDecode columns idx).2 - 1))
              ((floodOrderDecode columns idx).2 +
                dX (fd (floodOrderDecode columns idx).1
                  (floodOrderDecode columns idx).2 - 1)) +
            s)
      else output
    else output
  else output

/-- The filling pass: `for c := 0; c < numValidCells; c++` over the
recorded flood order (unwritten entries of the preallocated Go array read
as 0). -/
def fillPass (dem : Raster) (s : ℚ) (st : BState) : BState :=
  { st with
    output :=
      (List.range st.numValidCells.toNat).foldl
        (fun o k => fillCell dem.NoDataValue s st.flowdir o dem.Columns (st.floodorder.getD k 0))
        st.output }

/-- Apply the filling pass when `needsFilling && this.postBreachFilling`. -/
def maybeFill (dem : Raster) (s : ℚ) (postFill : Bool) : BreachResult → BreachResult
  | .stuckPop => .stuckPop
  | .fuelOut => .fuelOut
  | .ok st =>
      if st.needsFilling = true ∧ postFill = true then .ok (fillPass dem s st) else .ok st

/-- The fuel used for every loop of the run: enough for one pop (or one
trace step) per bordered cell, plus slack. -/
def runFuel (dem : Raster) : ℕ := (((dem.Rows + 2) * (dem.Columns + 2)).toNat + 2)

/-- `BreachDepressions.Run` without the I/O: initialisation, the branch
dispatch on the constraint configuration, and the optional post-breach
filling. -/
def Run (dem : Raster) (p : Params) : BreachResult :=
  maybeFill dem (smallNumOf dem) p.postBreachFilling
    (if maxLengthOrDepthUsed p = false then
      loopB dem.NoDataValue (elevMultiplierOf dem) (smallNumOf dem) (runFuel dem)
        (runFuel dem) (initAll dem (elevMultiplierOf dem) (smallNumOf dem))
    else if performConstrained p = false then
      loopS dem dem.NoDataValue (elevMultiplierOf dem) (smallNumOf dem)
        (adjMaxLength p) (adjMaxDepth p) p.postBreachFilling (runFuel dem)
        (runFuel dem) (initAll dem (elevMultiplierOf dem) (smallNumOf dem))
    else
      loopC dem dem.NoDataValue (elevMultiplierOf dem) (smallNumOf dem)
        (adjMaxLength p) (adjMaxDepth p) p.postBreachFilling (runFuel dem)
        (runFuel dem) (initAll dem (elevMultiplierOf dem) (smallNumOf dem)))

/-- The saved output raster: `rout.SetValue(row, col, output[row+1][col+1])`. -/
def finalOutput (st : BState) : ℤ → ℤ → ℚ := fun row col => st.output (row + 1) (col + 1)

/-- The drainage condition of claim C1 at an output cell: some 8-neighbour
is strictly lower, or some 8-neighbour is nodata. -/
def Lower (nodata : ℚ) (O : ℤ → ℤ → ℚ) (r c : ℤ) : Prop :=
  ∃ i : ℕ, i < 8 ∧
    (O (r + dY i) (c + dX i) = nodata ∨ O (r + dY i) (c + dX i) < O r c)

/-- The 3×3 crater DEM used against claims C1 and C4/C5 witnesses:
`[[8,8,8],[8,5,8],[8,8,8]]`, nodata −9999. -/
def demCrater : Raster :=
  ⟨3, 3, -9999, fun r c => if r = 1 ∧ c = 1 then 5 else 8⟩

/-- The 3×3 pit DEM of the spec's trivial-pit scenario:
`[[10,10,10],[10,1,10],[10,10,10]]`, nodata −9999. -/
def demPit : Raster :=
  ⟨3, 3, -9999, fun r c => if r = 1 ∧ c = 1 then 1 else 10⟩

/-- The 3×3 DEM against claim C5: nodata 0, centre `1/2000000`, one corner
`1/1000000`, remaining cells 2.  The centre is an interior pit whose
lowest neighbour is `1/1000000`; with `SMALL_NUM = 1/1000000` its
pre-raised output is exactly the nodata value. -/
def demCollide : Raster :=
  ⟨3, 3, 0, fun r c =>
    if r = 1 ∧ c = 1 then 1 / 2000000 else if r = 0 ∧ c = 0 then 1 / 1000000 else 2⟩

/-- A 3×4 DEM whose two interior cells form a depression (`2` beside `3`)
enclosed by an `8` high boundary ring; breaching the pit at `(1,1)` needs
a channel at least `5` deep. -/
def demCrater34 : Raster :=
  ⟨3, 4, -9999, fun r c => if r = 1 ∧ c = 1 then 2 else if r = 1 ∧ c = 2 then 3 else 8⟩

/-- Unconstrained parameters: `MaxDepth = -1`, `MaxLength = -1`, no
constrained breaching, no post-breach filling (the complete-breaching
branch). -/
def paramsComplete : Params := ⟨-1, -1, false, false⟩

/-- Selective parameters: `MaxDepth = 1/2`, `MaxLength = -1` (ignored,
promoted to `MaxInt32`), no constrained breaching, no post-breach
filling. -/
def paramsSel : Params := ⟨1 / 2, -1, false, false⟩

/-- Project the state out of a successful run (errors give the dummy
initial state). -/
def stOf : BreachResult → BState
  | .ok st => st
  | _ => initState

/-- Did the run complete normally? -/
def okB : BreachResult → Bool
  | .ok _ => true
  | _ => false

end Breach

/-! ********************************************************************
## Theorems
******************************************************************** -/

@[simp]
theorem upd_apply {α : Type} (g : ℤ → ℤ → α) (i j : ℤ) (v : α) (r c : ℤ) :
    upd g i j v r c = if r = i ∧ c = j then v else g r c := rfl

theorem f2i_intCast (z : ℤ) : f2i ((z : ℚ)) = z := by
  unfold f2i
  rcases lt_or_le z 0 with h | h
  · simp [Rat.num_intCast, Rat.den_intCast, h]
  · simp [Rat.num_intCast, Rat.den_intCast, not_lt.2 h, Int.not_lt.2 h]

@[simp]
theorem f2i_ofNat (n : ℕ) :
    f2i (no_index (OfNat.ofNat n) : ℚ) = OfNat.ofNat n := by
  have h := f2i_intCast (OfNat.ofNat n : ℤ)
  simpa using h

@[simp]
theorem f2i_neg (q : ℚ) : f2i (-q) = -f2i q := by
  unfold f2i
  rw [Rat.neg_num, Rat.neg_den]
  rcases lt_trichotomy q.num 0 with h | h | h
  · rw [if_neg (by omega), if_pos h, neg_neg]
  · rw [h]
    simp
  · rw [if_pos (by omega), if_neg (by omega), neg_neg]

theorem f2i_zero : f2i 0 = 0 := by
  have h := f2i_intCast 0
  simpa using h

theorem f2i_one : f2i 1 = 1 := by
  have h := f2i_intCast 1
  simpa using h

theorem powQ_eq_pow (b : ℚ) (n : ℕ) : powQ b n = b ^ n := by
  induction n with
  | zero => rfl
  | succ k ih => rw [powQ, ih, pow_succ]; ring

theorem qpow10_eq_zpow (e : ℤ) : qpow10 e = (10 : ℚ) ^ e := by
  unfold qpow10
  split
  · rename_i h
    rw [powQ_eq_pow, ← zpow_natCast]
    congr 1
    omega
  · rename_i h
    rw [powQ_eq_pow, ← zpow_natCast, one_div, ← zpow_neg]
    congr 1
    omega

theorem qpow10_pos (e : ℤ) : 0 < qpow10 e := by
  rw [qpow10_eq_zpow]
  positivity

/-- `n < 10 ^ digits10 n`: the decimal representation of `n` has
`digits10 n` digits. -/
theorem lt_pow10_digits10 (n : ℕ) : n < 10 ^ digits10 n := by
  induction n using Nat.strong_induction_on with
  | _ n ih =>
    rw [digits10]
    split
    · rename_i h
      simpa using h
    · rename_i h
      have hn : 0 < n := by omega
      have hdiv : n / 10 < n := Nat.div_lt_self hn (by omega)
      have := ih (n / 10) hdiv
      have h10 : n < 10 * (n / 10) + 10 := by omega
      calc n < 10 * (n / 10) + 10 := h10
        _ ≤ 10 * (10 ^ digits10 (n / 10) - 1) + 10 := by
            have : n / 10 + 1 ≤ 10 ^ digits10 (n / 10) := this
            omega
        _ ≤ 10 ^ (digits10 (n / 10) + 1) := by
            have : 1 ≤ 10 ^ digits10 (n / 10) := Nat.one_le_pow _ _ (by omega)
            rw [pow_succ]
            omega

/-! ### Claim C4: the flood-order index round-trip -/

/-- **C4** (code bug).  The post-breach filling pass records each popped
cell as `row*columns + col` in *bordered* coordinates (`row ∈ 1..rows`,
`col ∈ 1..columns`) but decodes with `/ columns` and `% columns`; for a
cell in the last bordered column (`col = columns`) the decode yields the
different cell `(row+1, 0)`, a border cell, so the filling pass does not
visit the recorded cell.  Concretely with `columns = 3`: the encode of
bordered cell `(1, 3)` decodes to `(2, 0)`. -/
theorem claim4_floodorder_decode_bug :
    Breach.floodOrderDecode 3 (Breach.floodOrderEncode 3 1 3) = (2, 0) ∧
    Breach.floodOrderDecode 3 (Breach.floodOrderEncode 3 1 3) ≠ (1, 3) := by
  constructor <;> decide

/-! ### Claim C3: the FillDepressions edge-cell priority -/

/-- **C3** (code bug).  In `FillDepressions.Run` the initialisation pushes
an edge cell with `p = int64(int64(zN*elevMultiplier) * 100000)` where
`zN` is the *last neighbour read* of the scan (the north neighbour), not
the cell's own elevation `z`.  On the 1×2 DEM `[[5, 9]]` (nodata −9999)
cell `(0,0)` is an edge cell whose north read is out-of-grid (nodata), so
the pushed key is `int64(-9999 * 10^7) * 100000 = -9999·10^12`, not the
`int64(5 * 10^7) * 100000 = 5·10^12` that the claim (and the matching
code in `BreachDepressions.Run`) prescribes. -/
theorem claim3_filldep_priority_bug :
    (FillDep.initScan FillDep.demC3 0 0).1 = true ∧
    FillDep.initPriority FillDep.demC3 0 0 = -9999000000000000 ∧
    FillDep.specInitPriority FillDep.demC3 0 0 = 5000000000000 ∧
    FillDep.initPriority FillDep.demC3 0 0 ≠ FillDep.specInitPriority FillDep.demC3 0 0 := by
  have hmult : elevMultiplierOf FillDep.demC3 = 10000000 := by
    rw [elevMultiplierOf]
    rw [show FillDep.demC3.GetMaximumValue = 9 from by
      rw [Raster.GetMaximumValue]
      norm_num [FillDep.demC3, show cellList 1 2 = [(0, 0), (0, 1)] from by decide, maxFloat64]]
    rw [show FillDep.demC3.GetMinimumValue = 5 from by
      rw [Raster.GetMinimumValue]
      norm_num [FillDep.demC3, show cellList 1 2 = [(0, 0), (0, 1)] from by decide, maxFloat64]]
    rw [show ((9 : ℚ) - 5) = ((4 : ℤ) : ℚ) from by norm_num, f2i_intCast]
    rw [show itoaLen 4 = 1 from by simp [itoaLen, digits10]]
    norm_num [qpow10, powQ]
  have hscan : FillDep.initScan FillDep.demC3 0 0 = (true, -9999) := by
    norm_num [FillDep.initScan, FillDep.demC3, Raster.Value, List.range_succ, dX, dY]
  have h1 : FillDep.initPriority FillDep.demC3 0 0 = -9999000000000000 := by
    rw [FillDep.initPriority, hscan, hmult]
    norm_num
  have h2 : FillDep.specInitPriority FillDep.demC3 0 0 = 5000000000000 := by
    rw [FillDep.specInitPriority, hmult]
    norm_num [Raster.Value, FillDep.demC3]
  refine ⟨by rw [hscan], h1, h2, by rw [h1, h2]; decide⟩

/-! ### Claim C8: the integral-image box corners -/

/-- **C8** (code bug).  `DeviationFromMean.Run` computes the box corners
as `x1 = col - R`, `y1 = row - R` (not `col - R - 1`, `row - R - 1` as
the claim and the spec state), so the four-corner combination counts the
`2R × 2R` box `(row-R, row+R] × (col-R, col+R]` instead of the
`(2R+1) × (2R+1)` window that the companion
`DeviationFromMeanTraditional.Run` sums directly.  On an all-valid 4×4
raster, at cell `(2,2)` with `R = 1`, the code's corners are `(1,1)`,
the claimed corners are `(0,0)`, and the code's `N` is 4 where the
traditional window holds 9 cells. -/
theorem claim8_integral_window_bug :
    DevMean.cornerX1 DevMean.rin4 1 2 = 1 ∧
    DevMean.cornerY1 DevMean.rin4 1 2 = 1 ∧
    DevMean.specX1 DevMean.rin4 1 2 = 0 ∧
    DevMean.specY1 DevMean.rin4 1 2 = 0 ∧
    DevMean.Nbox DevMean.rin4 1 2 2 = 4 ∧
    DevMean.tradN DevMean.rin4 1 2 2 = 9 ∧
    DevMean.Nbox DevMean.rin4 1 2 2 ≠ DevMean.tradN DevMean.rin4 1 2 2 := by
  have hN : DevMean.Nbox DevMean.rin4 1 2 2 = 4 := by
    norm_num [DevMean.Nbox, DevMean.cornerX1, DevMean.cornerX2, DevMean.cornerY1,
      DevMean.cornerY2, DevMean.clampIdx, DevMean.rin4, DevMean.IN, DevMean.rowCountN,
      Raster.Value]
  have hw : ((List.range (2 * (1 : ℤ) + 1).toNat).flatMap
      (fun a => (List.range (2 * (1 : ℤ) + 1).toNat).map
        (fun b => ((2 : ℤ) - 1 + (a : ℤ), (2 : ℤ) - 1 + (b : ℤ))))) =
      [(1, 1), (1, 2), (1, 3), (2, 1), (2, 2), (2, 3), (3, 1), (3, 2), (3, 3)] := by
    decide
  have hT : DevMean.tradN DevMean.rin4 1 2 2 = 9 := by
    rw [DevMean.tradN, hw]
    norm_num [DevMean.rin4, Raster.Value]
  refine ⟨by norm_num [DevMean.cornerX1, DevMean.clampIdx, DevMean.rin4],
    by norm_num [DevMean.cornerY1, DevMean.clampIdx, DevMean.rin4],
    by norm_num [DevMean.specX1, DevMean.clampIdx, DevMean.rin4],
    by norm_num [DevMean.specY1, DevMean.clampIdx, DevMean.rin4], hN, hT,
    by rw [hN, hT]; decide⟩

/-! ### Heap correctness lemmas -/

namespace HeapCore

variable {β : Type} (d : β) (pr : β → ℤ) (cmp : ℤ → ℤ → Bool)

theorem length_swapL (l : List β) (i j : ℕ) : (swapL d l i j).length = l.length := by
  simp [swapL]

theorem getD_swapL (l : List β) (i j k : ℕ) (hi : i < l.length) (hj : j < l.length) :
    (swapL d l i j).getD k d =
      if k = j then l.getD i d else if k = i then l.getD j d else l.getD k d := by
  simp only [swapL, List.getD_eq_getElem?_getD, List.getElem?_set, List.length_set]
  by_cases h1 : j = k
  · rw [if_pos h1, if_pos hj, Option.getD_some, if_pos h1.symm]
  · rw [if_neg h1, if_neg (Ne.symm h1)]
    by_cases h2 : i = k
    · rw [if_pos h2, if_pos hi, Option.getD_some, if_pos h2.symm]
    · rw [if_neg h2, if_neg (Ne.symm h2)]

theorem getD_append_lt (l : List β) (x : β) {i : ℕ} (h : i < l.length) :
    (l ++ [x]).getD i d = l.getD i d := by
  rw [List.getD_eq_getElem?_getD, List.getD_eq_getElem?_getD, List.getElem?_append_left h]

theorem getD_append_len (l : List β) (x : β) : (l ++ [x]).getD l.length d = x := by
  rw [List.getD_eq_getElem?_getD]
  simp

/-- In a heap the root is extremal: `cmp (root) (any)` is `false`. -/
theorem rootLe (htrans : ∀ a b c, cmp a b = false → cmp b c = false → cmp a c = false)
    (hrefl : ∀ a, cmp a a = false) {l : List β} (hl : heapProp d pr cmp l) :
    ∀ i, i < l.length → cmp (pr (l.getD 0 d)) (pr (l.getD i d)) = false := by
  intro i
  induction i using Nat.strong_induction_on with
  | _ i ih =>
    intro hi
    rcases Nat.eq_zero_or_pos i with h0 | h0
    · subst h0
      exact hrefl _
    · exact htrans _ _ _
        (ih ((i - 1) / 2) (by omega) (by omega))
        (hl i h0 hi)

/-- `swim` restores the heap invariant from an `upExcept` state. -/
theorem swim_heapProp
    (htrans : ∀ a b c, cmp a b = false → cmp b c = false → cmp a c = false)
    (hconn : ∀ a b, cmp a b = true → cmp b a = false) :
    ∀ j l, j < l.length → upExcept d pr cmp l j → heapProp d pr cmp (swim d pr cmp l j) := by
  intro j
  induction j using Nat.strong_induction_on with
  | _ j ih =>
    intro l hjl hup
    rw [swim]
    by_cases hj0 : j = 0
    · simp only [hj0, dif_pos]
      intro i hi0 hil
      exact hup.1 i hi0 hil (by omega)
    · rw [dif_neg hj0]
      by_cases hc : cmp (pr (l.getD ((j - 1) / 2) d)) (pr (l.getD j d)) = true
      · rw [if_pos hc]
        have hp : (j - 1) / 2 < j := by omega
        have hpl : (j - 1) / 2 < l.length := by omega
        have hlen : (swapL d l ((j - 1) / 2) j).length = l.length := length_swapL d l _ j
        refine ih ((j - 1) / 2) hp (swapL d l ((j - 1) / 2) j) (by omega) ⟨?_, ?_⟩
        · intro i hi0 hil hip
          rw [hlen] at hil
          rw [getD_swapL d l _ j _ hpl hjl, getD_swapL d l _ j _ hpl hjl]
          by_cases hij : i = j
          · subst hij
            rw [if_pos rfl, if_neg (by omega), if_pos rfl]
            exact hconn _ _ hc
          · rw [if_neg hij, if_neg hip]
            by_cases hparj : (i - 1) / 2 = j
            · rw [if_pos hparj]
              have h2 := hup.2 (by omega) i hi0 hil hparj
              exact h2
            · rw [if_neg hparj]
              by_cases hparp : (i - 1) / 2 = (j - 1) / 2
              · rw [if_pos hparp]
                refine htrans _ _ _ (hconn _ _ hc) ?_
                have h1 := hup.1 i hi0 hil hij
                rw [hparp] at h1
                exact h1
              · rw [if_neg hparp]
                exact hup.1 i hi0 hil hij
        · intro hp0 i hi0 hil hpar
          rw [hlen] at hil
          have hinej : ((j - 1) / 2 - 1) / 2 ≠ j := by omega
          have hinep : ((j - 1) / 2 - 1) / 2 ≠ (j - 1) / 2 := by omega
          have hiip : i ≠ (j - 1) / 2 := by omega
          rw [getD_swapL d l _ j _ hpl hjl, getD_swapL d l _ j _ hpl hjl,
            if_neg hinej, if_neg hinep]
          by_cases hij : i = j
          · subst hij
            rw [if_pos rfl]
            exact hup.1 _ hp0 hpl (by omega)
          · rw [if_neg hij, if_neg hiip]
            refine htrans _ (pr (l.getD ((j - 1) / 2) d)) _ ?_ ?_
            · exact hup.1 ((j - 1) / 2) hp0 hpl (by omega)
            · have h1 := hup.1 i hi0 hil hij
              rw [hpar] at h1
              exact h1
      · rw [if_neg hc]
        intro i hi0 hil
        by_cases hij : i = j
        · subst hij
          exact Bool.not_eq_true _ |>.mp hc
        · exact hup.1 i hi0 hil hij

/-- Appending a fresh leaf to a heap yields an `upExcept` state at the
leaf. -/
theorem push_upExcept {l : List β} (x : β) (hl : heapProp d pr cmp l) :
    upExcept d pr cmp (l ++ [x]) l.length := by
  constructor
  · intro i hi0 hil hine
    have hil' : i < l.length := by
      simp only [List.length_append, List.length_cons, List.length_nil] at hil
      omega
    rw [getD_append_lt d l x hil', getD_append_lt d l x (by omega)]
    exact hl i hi0 hil'
  · intro hn0 i hi0 hil hpar
    exfalso
    simp only [List.length_append, List.length_cons, List.length_nil] at hil
    omega

theorem head?_getD {l : List β} {x : β} (h : l.head? = some x) : l.getD 0 d = x := by
  cases l with
  | nil => simp at h
  | cons a t =>
      simp only [List.head?_cons, Option.some_inj] at h
      simpa using h

theorem mem_getD {l : List β} {x : β} (h : x ∈ l) :
    ∃ i, i < l.length ∧ l.getD i d = x := by
  rcases List.mem_iff_getElem.mp h with ⟨i, hi, hgi⟩
  exact ⟨i, hi, by rw [List.getD_eq_getElem _ _ hi, hgi]⟩

end HeapCore

theorem tools_gtb_trans :
    ∀ a b c : ℤ, Tools.gtb a b = false → Tools.gtb b c = false → Tools.gtb a c = false := by
  intro a b c hab hbc
  simp only [Tools.gtb, decide_eq_false_iff_not, not_lt] at *
  omega

theorem tools_gtb_conn :
    ∀ a b : ℤ, Tools.gtb a b = true → Tools.gtb b a = false := by
  intro a b h
  simp only [Tools.gtb, decide_eq_true_eq, decide_eq_false_iff_not, not_lt] at *
  omega

theorem tools_gtb_refl : ∀ a : ℤ, Tools.gtb a a = false := by
  intro a
  simp [Tools.gtb]

theorem tools_heapProp_push (q : Tools.PQueue) (v : Tools.gridCell) (p : ℤ)
    (h : HeapCore.heapProp Tools.ditem Tools.item.priority Tools.gtb q.items) :
    HeapCore.heapProp Tools.ditem Tools.item.priority Tools.gtb (q.Push v p).items := by
  refine HeapCore.swim_heapProp Tools.ditem Tools.item.priority Tools.gtb
    tools_gtb_trans tools_gtb_conn q.items.length (q.items ++ [⟨v, p⟩]) ?_ ?_
  · simp
  · exact HeapCore.push_upExcept Tools.ditem Tools.item.priority Tools.gtb _ h

theorem tools_heapProp_pushList (ps : List (Tools.gridCell × ℤ)) :
    ∀ q : Tools.PQueue, HeapCore.heapProp Tools.ditem Tools.item.priority Tools.gtb q.items →
      HeapCore.heapProp Tools.ditem Tools.item.priority Tools.gtb (Tools.pushList q ps).items := by
  induction ps with
  | nil => intro q h; exact h
  | cons vp rest ih =>
      intro q h
      obtain ⟨v, p⟩ := vp
      rw [Tools.pushList]
      exact ih _ (tools_heapProp_push q v p h)

theorem tools_heapProp_empty :
    HeapCore.heapProp Tools.ditem Tools.item.priority Tools.gtb Tools.NewPQueue.items := by
  intro j hj0 hjl
  simp [Tools.NewPQueue] at hjl

/-! ### Claim C2: the `tools` priority queue pops a least-key item -/

/-- **C2**.  After any sequence of `Push` operations on the `tools`
priority queue, `Pop` returns the value of the item at the heap root, the
root's `int64` priority is minimal among all items in the queue, and for
keys of the shape `e·100000 + f` with tie component `0 ≤ f < 100000` (the
elevation-scaled keys with the embedded `flatIndex mod 100000`), the
returned item's tie component is least among items with the same
elevation component — so among cells pushed with equal elevation-derived
priority, the smallest embedded `flatIndex` (the first pushed) is
returned first. -/
theorem claim2_pqueue_pop_min (ps : List (Tools.gridCell × ℤ)) (it0 : Tools.item)
    (hhead : (Tools.pushList Tools.NewPQueue ps).items.head? = some it0) :
    ((Tools.pushList Tools.NewPQueue ps).Pop.map Prod.fst) = some it0.value ∧
    (∀ it ∈ (Tools.pushList Tools.NewPQueue ps).items, it0.priority ≤ it.priority) ∧
    (∀ it ∈ (Tools.pushList Tools.NewPQueue ps).items, ∀ e f f' : ℤ,
      it0.priority = e * 100000 + f → 0 ≤ f → f < 100000 →
      it.priority = e * 100000 + f' → 0 ≤ f' → f' < 100000 → f ≤ f') := by
  have hheap := tools_heapProp_pushList ps Tools.NewPQueue tools_heapProp_empty
  have hmin : ∀ it ∈ (Tools.pushList Tools.NewPQueue ps).items, it0.priority ≤ it.priority := by
    intro it hit
    obtain ⟨i, hi, hgi⟩ := HeapCore.mem_getD Tools.ditem hit
    have hroot := HeapCore.rootLe Tools.ditem Tools.item.priority Tools.gtb
      tools_gtb_trans tools_gtb_refl hheap i hi
    rw [hgi, HeapCore.head?_getD Tools.ditem hhead] at hroot
    simp only [Tools.gtb, decide_eq_false_iff_not, not_lt] at hroot
    exact hroot
  refine ⟨?_, hmin, ?_⟩
  · rcases hl : (Tools.pushList Tools.NewPQueue ps).items with _ | ⟨top, rest⟩
    · rw [hl] at hhead
      simp at hhead
    · rw [hl] at hhead
      simp only [List.head?_cons, Option.some_inj] at hhead
      rw [Tools.PQueue.Pop, hl]
      subst hhead
      rfl
  · intro it hit e f f' h0 hf0 hf1 h1 hf2 hf3
    have := hmin it hit
    omega

/-- Witness for C2: pushing keys 7, 3, 5 and popping returns the value
pushed with key 3, whose key is minimal; the tie-break fact follows at
`e = 0`. -/
theorem claim2_witness :
    ((Tools.pushList Tools.NewPQueue
        [(Tools.newGridCell 1 1 0, 7), (Tools.newGridCell 2 2 0, 3),
          (Tools.newGridCell 3 3 0, 5)]).Pop.map Prod.fst) =
      some (Tools.newGridCell 2 2 0) ∧
    (∀ it ∈ (Tools.pushList Tools.NewPQueue
        [(Tools.newGridCell 1 1 0, 7), (Tools.newGridCell 2 2 0, 3),
          (Tools.newGridCell 3 3 0, 5)]).items, (3 : ℤ) ≤ it.priority) := by
  have h := claim2_pqueue_pop_min
    [(Tools.newGridCell 1 1 0, 7), (Tools.newGridCell 2 2 0, 3),
      (Tools.newGridCell 3 3 0, 5)]
    ⟨Tools.newGridCell 2 2 0, 3⟩ (by
      simp [Tools.pushList, Tools.NewPQueue, Tools.PQueue.Push, HeapCore.swim,
        HeapCore.swapL, Tools.gtb, Tools.newGridCell])
  exact ⟨h.1, h.2.1⟩

/-! ### Claim C10: the `structures` queue ignores its comparator -/

theorem struct_ltb_trans :
    ∀ a b c : ℤ, Structures.ltb a b = false → Structures.ltb b c = false →
      Structures.ltb a c = false := by
  intro a b c hab hbc
  simp only [Structures.ltb, decide_eq_false_iff_not, not_lt] at *
  omega

theorem struct_ltb_conn :
    ∀ a b : ℤ, Structures.ltb a b = true → Structures.ltb b a = false := by
  intro a b h
  simp only [Structures.ltb, decide_eq_true_eq, decide_eq_false_iff_not, not_lt] at *
  omega

theorem struct_ltb_refl : ∀ a : ℤ, Structures.ltb a a = false := by
  intro a
  simp [Structures.ltb]

theorem struct_heapProp_push {α : Type} [Inhabited α] (q : Structures.PQueue α) (v : α)
    (p : ℤ)
    (h : HeapCore.heapProp Structures.ditem' Structures.item.priority Structures.ltb q.items) :
    HeapCore.heapProp Structures.ditem' Structures.item.priority Structures.ltb (q.Push v p).items := by
  refine HeapCore.swim_heapProp Structures.ditem' Structures.item.priority Structures.ltb
    struct_ltb_trans struct_ltb_conn q.items.length (q.items ++ [⟨v, p⟩]) ?_ ?_
  · simp
  · exact HeapCore.push_upExcept Structures.ditem' Structures.item.priority Structures.ltb _ h

theorem struct_heapProp_pushList {α : Type} [Inhabited α] (ps : List (α × ℤ)) :
    ∀ q : Structures.PQueue α,
      HeapCore.heapProp Structures.ditem' Structures.item.priority Structures.ltb q.items →
      HeapCore.heapProp Structures.ditem' Structures.item.priority Structures.ltb
        (Structures.pushList q ps).items := by
  induction ps with
  | nil => intro q h; exact h
  | cons vp rest ih =>
      intro q h
      obtain ⟨v, p⟩ := vp
      rw [Structures.pushList]
      exact ih _ (struct_heapProp_push q v p h)

/-- Pushing the same sequence into queues that differ only in their stored
comparator yields identical item arrays: `swim`/`sink` never consult it. -/
theorem struct_pushList_items {α : Type} [Inhabited α] (ps : List (α × ℤ)) :
    ∀ (l : List (Structures.item α)) (c₁ c₂ : ℤ → ℤ → Bool),
      (Structures.pushList ⟨l, c₁⟩ ps).items = (Structures.pushList ⟨l, c₂⟩ ps).items := by
  induction ps with
  | nil => intro l c₁ c₂; rfl
  | cons vp rest ih =>
      intro l c₁ c₂
      obtain ⟨v, p⟩ := vp
      rw [Structures.pushList, Structures.pushList]
      exact ih _ c₁ c₂

/-- **C10**.  The `structures` package `PQueue` orders identically for
`MINPQ` and `MAXPQ`: the comparator selected by `NewPQueue` is stored but
never consulted by `swim`/`sink`, which compare with the fixed `<`; after
any push sequence the two queues hold identical item arrays, and `Pop`
returns an item of *maximal* integer priority in both cases. -/
theorem claim10_pqtype_independent {α : Type} [Inhabited α] (ps : List (α × ℤ))
    (it0 : Structures.item α)
    (hhead : (Structures.pushList (Structures.NewPQueue α Structures.PQType.MINPQ) ps).items.head? =
      some it0) :
    (Structures.pushList (Structures.NewPQueue α Structures.PQType.MINPQ) ps).items =
      (Structures.pushList (Structures.NewPQueue α Structures.PQType.MAXPQ) ps).items ∧
    ((Structures.pushList (Structures.NewPQueue α Structures.PQType.MINPQ) ps).Pop.map
        Prod.fst) = some it0.value ∧
    (∀ it ∈ (Structures.pushList (Structures.NewPQueue α Structures.PQType.MINPQ) ps).items,
      it.priority ≤ it0.priority) := by
  have hitems : (Structures.pushList (Structures.NewPQueue α Structures.PQType.MINPQ) ps).items =
      (Structures.pushList (Structures.NewPQueue α Structures.PQType.MAXPQ) ps).items := by
    rw [Structures.NewPQueue, Structures.NewPQueue]
    exact struct_pushList_items ps [] _ _
  have hheap := struct_heapProp_pushList ps (Structures.NewPQueue α Structures.PQType.MINPQ)
    (by intro j hj0 hjl; simp [Structures.NewPQueue] at hjl)
  have hmax : ∀ it ∈ (Structures.pushList (Structures.NewPQueue α Structures.PQType.MINPQ)
      ps).items, it.priority ≤ it0.priority := by
    intro it hit
    obtain ⟨i, hi, hgi⟩ := HeapCore.mem_getD Structures.ditem' hit
    have hroot := HeapCore.rootLe Structures.ditem' Structures.item.priority Structures.ltb
      struct_ltb_trans struct_ltb_refl hheap i hi
    rw [hgi, HeapCore.head?_getD Structures.ditem' hhead] at hroot
    simp only [Structures.ltb, decide_eq_false_iff_not, not_lt] at hroot
    exact hroot
  refine ⟨hitems, ?_, hmax⟩
  rcases hl : (Structures.pushList (Structures.NewPQueue α Structures.PQType.MINPQ) ps).items
    with _ | ⟨top, rest⟩
  · rw [hl] at hhead
    simp at hhead
  · rw [hl] at hhead
    simp only [List.head?_cons, Option.some_inj] at hhead
    rw [Structures.PQueue.Pop, hl]
    subst hhead
    rfl

/-- Witness for C10: after pushing keys 7, 3, 5, the `MINPQ` and `MAXPQ`
queues hold the same items, and `Pop` returns the value with key 7 (the
maximum) even on the queue created as `MINPQ`. -/
theorem claim10_witness :
    (Structures.pushList (Structures.NewPQueue ℤ Structures.PQType.MINPQ)
        [((11 : ℤ), (7 : ℤ)), (22, 3), (33, 5)]).items =
      (Structures.pushList (Structures.NewPQueue ℤ Structures.PQType.MAXPQ)
        [((11 : ℤ), (7 : ℤ)), (22, 3), (33, 5)]).items ∧
    ((Structures.pushList (Structures.NewPQueue ℤ Structures.PQType.MINPQ)
        [((11 : ℤ), (7 : ℤ)), (22, 3), (33, 5)]).Pop.map Prod.fst) = some 11 ∧
    (∀ it ∈ (Structures.pushList (Structures.NewPQueue ℤ Structures.PQType.MINPQ)
        [((11 : ℤ), (7 : ℤ)), (22, 3), (33, 5)]).items, it.priority ≤ (7 : ℤ)) := by
  have h := claim10_pqtype_independent
    [((11 : ℤ), (7 : ℤ)), (22, 3), (33, 5)] ⟨11, 7⟩ (by
      simp [Structures.pushList, Structures.NewPQueue, Structures.PQueue.Push,
        HeapCore.swim, HeapCore.swapL, Structures.ltb])
  exact h

/-! ### Claim C7: the staircase scenario -/

theorem dem5_fd0 (cX cY dd : ℚ) (hcX : 0 < cX) : D8.flowdirAt D8.dem5 cX cY dd 0 0 = 2 := by
  norm_num [D8.flowdirAt, D8.fdScan, D8.slopeAt, D8.dist, D8.dem5, Raster.Value,
    dX, dY, List.range_succ, hcX]

theorem dem5_fd1 (cX cY dd : ℚ) (hcX : 0 < cX) : D8.flowdirAt D8.dem5 cX cY dd 0 1 = 2 := by
  have hinv : (0:ℚ) ≤ cX⁻¹ := inv_nonneg.mpr (le_of_lt hcX)
  have hlt : ¬ (cX⁻¹ < -1/cX) := by
    rw [not_lt, neg_div, one_div]
    linarith
  norm_num [D8.flowdirAt, D8.fdScan, D8.slopeAt, D8.dist, D8.dem5, Raster.Value,
    dX, dY, List.range_succ, hcX, hlt]

theorem dem5_fd4 (cX cY dd : ℚ) (hcX : 0 < cX) : D8.flowdirAt D8.dem5 cX cY dd 0 4 = 0 := by
  have hinv : (0:ℚ) ≤ cX⁻¹ := inv_nonneg.mpr (le_of_lt hcX)
  have hneg : ¬ ((0:ℚ) < -1/cX) := by
    rw [not_lt, neg_div, one_div]
    linarith
  norm_num [D8.flowdirAt, D8.fdScan, D8.slopeAt, D8.dist, D8.dem5, Raster.Value,
    dX, dY, List.range_succ, hcX, hneg]

theorem dem5_fd2 (cX cY dd : ℚ) (hcX : 0 < cX) : D8.flowdirAt D8.dem5 cX cY dd 0 2 = 2 := by
  have hinv : (0:ℚ) ≤ cX⁻¹ := inv_nonneg.mpr (le_of_lt hcX)
  have hlt : ¬ (cX⁻¹ < -1/cX) := by
    rw [not_lt, neg_div, one_div]
    linarith
  norm_num [D8.flowdirAt, D8.fdScan, D8.slopeAt, D8.dist, D8.dem5, Raster.Value,
    dX, dY, List.range_succ, hcX, hlt]

theorem dem5_fd3 (cX cY dd : ℚ) (hcX : 0 < cX) : D8.flowdirAt D8.dem5 cX cY dd 0 3 = 2 := by
  have hinv : (0:ℚ) ≤ cX⁻¹ := inv_nonneg.mpr (le_of_lt hcX)
  have hlt : ¬ (cX⁻¹ < -1/cX) := by
    rw [not_lt, neg_div, one_div]
    linarith
  norm_num [D8.flowdirAt, D8.fdScan, D8.slopeAt, D8.dist, D8.dem5, Raster.Value,
    dX, dY, List.range_succ, hcX, hlt]

set_option maxHeartbeats 2000000 in
/-- **C7**.  On the 1×5 staircase DEM `[5,4,3,2,1]` with nodata −9999 and
any positive cell width, the pointer pass assigns direction 2 (east) to
cells (0,0)..(0,3) and 0 to cell (0,4); the accumulation grid is
initialised to 1 everywhere; and the FIFO main loop terminates with the
final accumulation `[1,2,3,4,5]`. -/
theorem claim7_staircase (cX cY dd : ℚ) (hcX : 0 < cX) :
    D8.flowdirAt D8.dem5 cX cY dd 0 0 = 2 ∧
    D8.flowdirAt D8.dem5 cX cY dd 0 1 = 2 ∧
    D8.flowdirAt D8.dem5 cX cY dd 0 2 = 2 ∧
    D8.flowdirAt D8.dem5 cX cY dd 0 3 = 2 ∧
    D8.flowdirAt D8.dem5 cX cY dd 0 4 = 0 ∧
    (∀ r c : ℤ, (D8.d8InitState D8.dem5 cX cY dd).accum r c = 1) ∧
    (D8.d8Run D8.dem5 cX cY dd).map
        (fun st => [st.accum 0 0, st.accum 0 1, st.accum 0 2, st.accum 0 3, st.accum 0 4]) =
      some [1, 2, 3, 4, 5] := by
  have h0 := dem5_fd0 cX cY dd hcX
  have h1 := dem5_fd1 cX cY dd hcX
  have h2 := dem5_fd2 cX cY dd hcX
  have h3 := dem5_fd3 cX cY dd hcX
  have h4 := dem5_fd4 cX cY dd hcX
  refine ⟨h0, h1, h2, h3, h4, fun r c => rfl, ?_⟩
  have hr0 : D8.recvOf D8.dem5 cX cY dd 0 0 = some (0, 1) := by
    norm_num [D8.recvOf, h0, dX, dY]
  have hr1 : D8.recvOf D8.dem5 cX cY dd 0 1 = some (0, 2) := by
    norm_num [D8.recvOf, h1, dX, dY]
  have hr2 : D8.recvOf D8.dem5 cX cY dd 0 2 = some (0, 3) := by
    norm_num [D8.recvOf, h2, dX, dY]
  have hr3 : D8.recvOf D8.dem5 cX cY dd 0 3 = some (0, 4) := by
    norm_num [D8.recvOf, h3, dX, dY]
  have hr4 : D8.recvOf D8.dem5 cX cY dd 0 4 = none := by
    norm_num [D8.recvOf, h4]
  have hcl : cellList D8.dem5.Rows D8.dem5.Columns =
      [((0:ℤ), (0:ℤ)), (0, 1), (0, 2), (0, 3), (0, 4)] := by decide
  have hi0 : D8.indeg D8.dem5 cX cY dd 0 0 = 0 := by
    norm_num [D8.indeg, hcl, hr0, hr1, hr2, hr3, hr4]
    all_goals decide
  have hi1 : D8.indeg D8.dem5 cX cY dd 0 1 = 1 := by
    norm_num [D8.indeg, hcl, hr0, hr1, hr2, hr3, hr4]
    all_goals decide
  have hi2 : D8.indeg D8.dem5 cX cY dd 0 2 = 1 := by
    norm_num [D8.indeg, hcl, hr0, hr1, hr2, hr3, hr4]
    all_goals decide
  have hi3 : D8.indeg D8.dem5 cX cY dd 0 3 = 1 := by
    norm_num [D8.indeg, hcl, hr0, hr1, hr2, hr3, hr4]
    all_goals decide
  have hi4 : D8.indeg D8.dem5 cX cY dd 0 4 = 1 := by
    norm_num [D8.indeg, hcl, hr0, hr1, hr2, hr3, hr4]
    all_goals decide
  have hv0 : D8.dem5.Value 0 0 = 5 := by norm_num [D8.dem5, Raster.Value]
  have hv1 : D8.dem5.Value 0 1 = 4 := by norm_num [D8.dem5, Raster.Value]
  have hv2 : D8.dem5.Value 0 2 = 3 := by norm_num [D8.dem5, Raster.Value]
  have hv3 : D8.dem5.Value 0 3 = 2 := by norm_num [D8.dem5, Raster.Value]
  have hv4 : D8.dem5.Value 0 4 = 1 := by norm_num [D8.dem5, Raster.Value]
  have hnd : D8.dem5.NoDataValue = -9999 := rfl
  have hseeds : D8.seeds D8.dem5 cX cY dd = [((0:ℤ), (0:ℤ))] := by
    norm_num [D8.seeds, hcl, hi0, hi1, hi2, hi3, hi4, hv0, hv1, hv2, hv3, hv4, hnd]
  have hRows : D8.dem5.Rows = 1 := rfl
  have hCols : D8.dem5.Columns = 5 := rfl
  norm_num [D8.d8Run, D8.d8Loop, D8.d8Step, D8.d8InitState, hseeds,
    D8.routValue, D8.routSet, D8.inRange, upd, hRows, hCols,
    dX, dY, h0, h1, h2, h3, h4, hi0, hi1, hi2, hi3, hi4]


/-- Witness for C7: the staircase run with unit cell sizes. -/
theorem claim7_witness :
    D8.flowdirAt D8.dem5 1 1 1 0 0 = 2 ∧
    D8.flowdirAt D8.dem5 1 1 1 0 1 = 2 ∧
    D8.flowdirAt D8.dem5 1 1 1 0 2 = 2 ∧
    D8.flowdirAt D8.dem5 1 1 1 0 3 = 2 ∧
    D8.flowdirAt D8.dem5 1 1 1 0 4 = 0 ∧
    (∀ r c : ℤ, (D8.d8InitState D8.dem5 1 1 1).accum r c = 1) ∧
    (D8.d8Run D8.dem5 1 1 1).map
        (fun st => [st.accum 0 0, st.accum 0 1, st.accum 0 2, st.accum 0 3, st.accum 0 4]) =
      some [1, 2, 3, 4, 5] :=
  claim7_staircase 1 1 1 (by norm_num)

/-! ### Claim C6: Kahn invariants of the D8 FIFO loop -/

namespace D8

theorem mem_cellList (rows cols : ℤ) (p : ℤ × ℤ) :
    p ∈ cellList rows cols ↔ 0 ≤ p.1 ∧ p.1 < rows ∧ 0 ≤ p.2 ∧ p.2 < cols := by
  obtain ⟨a, b⟩ := p
  simp only [cellList, List.mem_flatMap, List.mem_map, List.mem_range, Prod.mk.injEq]
  constructor
  · rintro ⟨r, hr, c, hc, h1, h2⟩
    omega
  · rintro ⟨h1, h2, h3, h4⟩
    exact ⟨a.toNat, by omega, b.toNat, by omega, by omega, by omega⟩

theorem cellList_nodup (rows cols : ℤ) : (cellList rows cols).Nodup := by
  rw [cellList, List.nodup_flatMap]
  constructor
  · intro r _
    show ((List.range cols.toNat).map (fun col : ℕ => ((r : ℤ), (col : ℤ)))).Nodup
    refine List.Nodup.map ?_ (List.nodup_range _)
    intro a b hab
    simpa using congrArg Prod.snd hab
  · refine List.Pairwise.imp ?_ (List.pairwise_lt_range _)
    intro a b hab x hxa hxb
    simp only [List.mem_map] at hxa hxb
    obtain ⟨ca, _, hca⟩ := hxa
    obtain ⟨cb, _, hcb⟩ := hxb
    have h := hca.trans hcb.symm
    rw [Prod.mk.injEq] at h
    omega

theorem cellList_length (rows cols : ℤ) :
    (cellList rows cols).length = rows.toNat * cols.toNat := by
  rw [cellList, List.length_flatMap]
  simp [Function.comp_def, List.map_const', List.sum_replicate, smul_eq_mul]

theorem toNat_mul_le (rows cols : ℤ) : rows.toNat * cols.toNat ≤ (rows * cols).toNat := by
  rcases le_or_lt 0 rows with hr | hr
  · rcases le_or_lt 0 cols with hc | hc
    · have h1 : ((rows.toNat * cols.toNat : ℕ) : ℤ) = rows * cols := by
        push_cast
        rw [Int.toNat_of_nonneg hr, Int.toNat_of_nonneg hc]
      rw [← h1, Int.toNat_natCast]
    · have : cols.toNat = 0 := by omega
      simp [this]
  · have : rows.toNat = 0 := by omega
    simp [this]

theorem value_ne_nodata_inRange (dem : Raster) (r c : ℤ)
    (h : dem.Value r c ≠ dem.NoDataValue) : inRange dem r c := by
  unfold inRange
  by_contra hc
  apply h
  unfold Raster.Value
  rw [if_neg hc]

theorem mem_cellList_iff_inRange (dem : Raster) (p : ℤ × ℤ) :
    p ∈ cellList dem.Rows dem.Columns ↔ inRange dem p.1 p.2 := by
  rw [mem_cellList]
  unfold inRange
  tauto

theorem foldl_count {α : Type} (pred : α → Prop) [DecidablePred pred] (l : List α) (k : ℤ) :
    l.foldl (fun k p => if pred p then k + 1 else k) k =
      k + (l.countP (fun p => decide (pred p)) : ℕ) := by
  induction l generalizing k with
  | nil => simp
  | cons a t ih =>
      rw [List.foldl_cons, List.countP_cons]
      by_cases h : pred a
      · rw [if_pos h, ih]
        simp [h]
        all_goals omega
      · rw [if_neg h, ih]
        simp [h]
        all_goals omega

theorem indeg_eq (dem : Raster) (cX cY dd : ℚ) (r c : ℤ) :
    indeg dem cX cY dd r c =
      (inCount dem cX cY dd (r, c) (cellList dem.Rows dem.Columns) : ℤ) := by
  rw [indeg, inCount]
  simp only [foldl_count]
  simp

/-- The fold of the pointer-pass scan either never saw a valid neighbour
(`maxSlope` still `-Inf`) or holds the slope and 1-based direction of some
valid neighbour. -/
theorem fdScan_spec (dem : Raster) (cX cY dd : ℚ) (r c : ℤ) :
    (fdScan dem cX cY dd r c).1 = none ∨
    ∃ n : ℕ, n < 8 ∧
      fdScan dem cX cY dd r c = (some (slopeAt dem cX cY dd r c n), n + 1) ∧
      dem.Value (r + dY n) (c + dX n) ≠ dem.NoDataValue := by
  rw [fdScan]
  refine @List.foldlRecOn _ _
    (fun acc => acc.1 = none ∨ ∃ n : ℕ, n < 8 ∧
      acc = (some (slopeAt dem cX cY dd r c n), n + 1) ∧
      dem.Value (r + dY n) (c + dX n) ≠ dem.NoDataValue)
    (List.range 8) _ (none, 0) (Or.inl rfl) ?_
  intro b hb a ha
  have ha8 : a < 8 := List.mem_range.mp ha
  by_cases hv : dem.Value (r + dY a) (c + dX a) ≠ dem.NoDataValue
  · rcases hb with h0 | ⟨n, hn, hacc, hvn⟩
    · obtain ⟨b1, b2⟩ := b
      have hb1 : b1 = none := h0
      subst hb1
      exact Or.inr ⟨a, ha8, by rw [if_pos hv], hv⟩
    · subst hacc
      rcases lt_or_ge (slopeAt dem cX cY dd r c n) (slopeAt dem cX cY dd r c a) with
        hgt | hle
      · refine Or.inr ⟨a, ha8, ?_, hv⟩
        show (if dem.Value (r + dY a) (c + dX a) ≠ dem.NoDataValue then
            if slopeAt dem cX cY dd r c a > slopeAt dem cX cY dd r c n then
              (some (slopeAt dem cX cY dd r c a), a + 1)
            else (some (slopeAt dem cX cY dd r c n), n + 1)
          else (some (slopeAt dem cX cY dd r c n), n + 1)) =
          (some (slopeAt dem cX cY dd r c a), a + 1)
        rw [if_pos hv, if_pos hgt]
      · refine Or.inr ⟨n, hn, ?_, hvn⟩
        show (if dem.Value (r + dY a) (c + dX a) ≠ dem.NoDataValue then
            if slopeAt dem cX cY dd r c a > slopeAt dem cX cY dd r c n then
              (some (slopeAt dem cX cY dd r c a), a + 1)
            else (some (slopeAt dem cX cY dd r c n), n + 1)
          else (some (slopeAt dem cX cY dd r c n), n + 1)) =
          (some (slopeAt dem cX cY dd r c n), n + 1)
        rw [if_pos hv, if_neg (not_lt.mpr hle)]
  · rcases hb with h0 | ⟨n, hn, hacc, hvn⟩
    · refine Or.inl ?_
      obtain ⟨b1, b2⟩ := b
      have hb1 : b1 = none := h0
      subst hb1
      show (if dem.Value (r + dY a) (c + dX a) ≠ dem.NoDataValue then
          (some (slopeAt dem cX cY dd r c a), a + 1) else ((none : Option ℚ), b2)).1 = none
      rw [if_neg hv]
    · refine Or.inr ⟨n, hn, ?_, hvn⟩
      subst hacc
      show (if dem.Value (r + dY a) (c + dX a) ≠ dem.NoDataValue then
          if slopeAt dem cX cY dd r c a > slopeAt dem cX cY dd r c n then
            (some (slopeAt dem cX cY dd r c a), a + 1)
          else (some (slopeAt dem cX cY dd r c n), n + 1)
        else (some (slopeAt dem cX cY dd r c n), n + 1)) =
        (some (slopeAt dem cX cY dd r c n), n + 1)
      rw [if_neg hv]

/-- A positive flow direction points at a valid neighbour of strictly
lower elevation (for positive cell sizes). -/
theorem flowdir_spec (dem : Raster) (cX cY dd : ℚ) (hcX : 0 < cX) (hcY : 0 < cY)
    (hdd : 0 < dd) (r c : ℤ) (hpos : 0 < flowdirAt dem cX cY dd r c) :
    dem.Value r c ≠ dem.NoDataValue ∧
    ∃ n : ℕ, n < 8 ∧ flowdirAt dem cX cY dd r c = n + 1 ∧
      dem.Value (r + dY n) (c + dX n) ≠ dem.NoDataValue ∧
      dem.Value (r + dY n) (c + dX n) < dem.Value r c := by
  by_cases hvc : dem.Value r c = dem.NoDataValue
  · rw [flowdirAt, if_pos hvc] at hpos
    exact absurd hpos (by omega)
  · refine ⟨hvc, ?_⟩
    rcases fdScan_spec dem cX cY dd r c with h0 | ⟨n, hn, heq, hvn⟩
    · exfalso
      rcases hsc : fdScan dem cX cY dd r c with ⟨o, d2⟩
      rw [hsc] at h0
      have ho : o = none := h0
      subst ho
      rw [flowdirAt, if_neg hvc, hsc] at hpos
      simp at hpos
    · have hfd : flowdirAt dem cX cY dd r c =
          if slopeAt dem cX cY dd r c n > 0 then n + 1 else 0 := by
        rw [flowdirAt, if_neg hvc, heq]
      by_cases hm : slopeAt dem cX cY dd r c n > 0
      · refine ⟨n, hn, by rw [hfd, if_pos hm], hvn, ?_⟩
        have hdist : 0 < dist cX cY dd n := by
          interval_cases n <;> simp [dist] <;> assumption
        rw [slopeAt] at hm
        rcases div_pos_iff.mp hm with ⟨hnum, _⟩ | ⟨_, hden⟩
        · linarith
        · linarith
      · rw [hfd, if_neg hm] at hpos
        exact absurd hpos (by omega)

/-- The receiver of a cell is a valid neighbour of strictly lower
elevation, and the cell itself is valid. -/
theorem recvOf_spec (dem : Raster) (cX cY dd : ℚ) (hcX : 0 < cX) (hcY : 0 < cY)
    (hdd : 0 < dd) (q t : ℤ × ℤ)
    (h : recvOf dem cX cY dd q.1 q.2 = some t) :
    valid dem q ∧ valid dem t ∧ dem.Value t.1 t.2 < dem.Value q.1 q.2 := by
  rw [recvOf] at h
  by_cases hpos : flowdirAt dem cX cY dd q.1 q.2 > 0
  · rw [if_pos hpos] at h
    obtain ⟨hvq, n, hn, hfd, hvn, hlt⟩ := flowdir_spec dem cX cY dd hcX hcY hdd q.1 q.2 hpos
    rw [Option.some_inj] at h
    have ht : t = (q.1 + dY n, q.2 + dX n) := by
      rw [← h, hfd]
      simp
    rw [ht]
    exact ⟨hvq, hvn, hlt⟩
  · rw [if_neg hpos] at h
    exact absurd h (by simp)

theorem inCount_append (dem : Raster) (cX cY dd : ℚ) (p : ℤ × ℤ)
    (l₁ l₂ : List (ℤ × ℤ)) :
    inCount dem cX cY dd p (l₁ ++ l₂) =
      inCount dem cX cY dd p l₁ + inCount dem cX cY dd p l₂ :=
  List.countP_append _ _ _

theorem inCount_singleton (dem : Raster) (cX cY dd : ℚ) (p q : ℤ × ℤ) :
    inCount dem cX cY dd p [q] =
      if recvOf dem cX cY dd q.1 q.2 = some p then 1 else 0 := by
  rw [inCount, List.countP_cons, List.countP_nil]
  by_cases h : recvOf dem cX cY dd q.1 q.2 = some p
  · rw [if_pos h]
    simp [h]
  · rw [if_neg h]
    simp [h]

theorem d8Step_none (dem : Raster) (cX cY dd : ℚ) (st : D8State) (rc : ℤ × ℤ)
    (h : recvOf dem cX cY dd rc.1 rc.2 = none) :
    d8Step dem cX cY dd st rc = st := by
  rw [recvOf] at h
  by_cases hpos : flowdirAt dem cX cY dd rc.1 rc.2 > 0
  · rw [if_pos hpos] at h
    exact absurd h (by simp)
  · rw [d8Step, if_neg hpos]

theorem d8Step_some (dem : Raster) (cX cY dd : ℚ) (st : D8State) (rc t : ℤ × ℤ)
    (h : recvOf dem cX cY dd rc.1 rc.2 = some t) :
    d8Step dem cX cY dd st rc =
      { st with
        accum := routSet dem st.accum t.1 t.2
          (routValue dem st.accum t.1 t.2 + routValue dem st.accum rc.1 rc.2),
        inflow := upd st.inflow t.1 t.2 (st.inflow t.1 t.2 - 1),
        queue := if st.inflow t.1 t.2 - 1 = 0 then st.queue ++ [t] else st.queue } := by
  rw [recvOf] at h
  by_cases hpos : flowdirAt dem cX cY dd rc.1 rc.2 > 0
  · rw [if_pos hpos, Option.some_inj] at h
    rw [d8Step, if_pos hpos, ← h]
  · rw [if_neg hpos] at h
    exact absurd h (by simp)

/-- One iteration of the FIFO main loop preserves the Kahn invariant. -/
theorem kahnInv_step (dem : Raster) (cX cY dd : ℚ) (hcX : 0 < cX) (hcY : 0 < cY)
    (hdd : 0 < dd) (st : D8State) (rc : ℤ × ℤ) (rest : List (ℤ × ℤ))
    (hq : st.queue = rc :: rest) (hinv : kahnInv dem cX cY dd st) :
    kahnInv dem cX cY dd
      (d8Step dem cX cY dd { st with queue := rest, popTrace := st.popTrace ++ [rc] } rc) := by
  obtain ⟨hA, hB, hC, hD⟩ := hinv
  rw [hq] at hB hC hD
  rcases hrecv : recvOf dem cX cY dd rc.1 rc.2 with _ | t
  · rw [d8Step_none dem cX cY dd _ rc hrecv]
    have hl : (st.popTrace ++ [rc]) ++ rest = st.popTrace ++ rc :: rest := by
      rw [List.append_assoc, List.singleton_append]
    refine ⟨?_, ?_, ?_, ?_⟩
    · intro p
      show st.inflow p.1 p.2 = indeg dem cX cY dd p.1 p.2 -
        (inCount dem cX cY dd p (st.popTrace ++ [rc]) : ℤ)
      rw [inCount_append, inCount_singleton, if_neg (by rw [hrecv]; simp)]
      exact hA p
    · show ((st.popTrace ++ [rc]) ++ rest).Nodup
      rw [hl]
      exact hB
    · show ∀ p ∈ (st.popTrace ++ [rc]) ++ rest, valid dem p
      rw [hl]
      exact hC
    · intro p hp
      show p ∈ (st.popTrace ++ [rc]) ++ rest ↔ st.inflow p.1 p.2 = 0
      rw [hl]
      exact hD p hp
  · obtain ⟨hvrc, hvt, hltv⟩ := recvOf_spec dem cX cY dd hcX hcY hdd rc t hrecv
    have hrct : rc ≠ t := fun h => absurd hltv (by rw [h]; exact lt_irrefl _)
    have hsub : ∀ x ∈ st.popTrace ++ rc :: rest, x ∈ cellList dem.Rows dem.Columns :=
      fun x hx => (mem_cellList_iff_inRange dem x).mpr
        (value_ne_nodata_inRange dem x.1 x.2 (hC x hx))
    have hsp : (st.popTrace ++ rc :: rest).Subperm (cellList dem.Rows dem.Columns) :=
      List.subperm_of_subset hB hsub
    have hcount_le : inCount dem cX cY dd t (st.popTrace ++ rc :: rest) ≤
        inCount dem cX cY dd t (cellList dem.Rows dem.Columns) :=
      List.Subperm.countP_le _ hsp
    have hsplit : inCount dem cX cY dd t (st.popTrace ++ rc :: rest) =
        inCount dem cX cY dd t st.popTrace + inCount dem cX cY dd t (rc :: rest) :=
      inCount_append dem cX cY dd t _ _
    have hone : 1 ≤ inCount dem cX cY dd t (rc :: rest) := by
      rw [inCount, List.countP_cons]
      simp [hrecv]
    have hAt := hA t
    have hIt := indeg_eq dem cX cY dd t.1 t.2
    rw [Prod.mk.eta] at hIt
    have hinfl_pos : 1 ≤ st.inflow t.1 t.2 := by omega
    have htnot : t ∉ st.popTrace ++ rc :: rest := by
      intro hmem
      have := (hD t hvt).mp hmem
      omega
    rw [d8Step_some dem cX cY dd _ rc t hrecv]
    have hcrc : inCount dem cX cY dd t [rc] = 1 := by
      rw [inCount_singleton, if_pos hrecv]
    have hl : (st.popTrace ++ [rc]) ++ rest = st.popTrace ++ rc :: rest := by
      rw [List.append_assoc, List.singleton_append]
    by_cases hz : st.inflow t.1 t.2 - 1 = 0
    · refine ⟨?_, ?_, ?_, ?_⟩
      · intro p
        show upd st.inflow t.1 t.2 (st.inflow t.1 t.2 - 1) p.1 p.2 =
          indeg dem cX cY dd p.1 p.2 -
            (inCount dem cX cY dd p (st.popTrace ++ [rc]) : ℤ)
        by_cases hp : p = t
        · subst hp
          rw [upd_apply, if_pos ⟨rfl, rfl⟩, inCount_append, hcrc]
          have := hA p
          push_cast
          omega
        · rw [upd_apply, if_neg (fun hc => hp (Prod.ext hc.1 hc.2)),
            inCount_append, inCount_singleton,
            if_neg (fun hc => hp (by rw [hrecv] at hc; exact (Option.some_inj.mp hc).symm))]
          exact hA p
      · show ((st.popTrace ++ [rc]) ++
          (if st.inflow t.1 t.2 - 1 = 0 then rest ++ [t] else rest)).Nodup
        rw [if_pos hz, ← List.append_assoc, hl, ← List.concat_eq_append]
        exact List.Nodup.concat htnot hB
      · show ∀ p ∈ (st.popTrace ++ [rc]) ++
          (if st.inflow t.1 t.2 - 1 = 0 then rest ++ [t] else rest), valid dem p
        rw [if_pos hz, ← List.append_assoc, hl]
        intro p hp
        rcases List.mem_append.mp hp with h1 | h1
        · exact hC p h1
        · rw [List.mem_singleton] at h1
          subst h1
          exact hvt
      · intro p hp
        show p ∈ (st.popTrace ++ [rc]) ++
            (if st.inflow t.1 t.2 - 1 = 0 then rest ++ [t] else rest) ↔
          upd st.inflow t.1 t.2 (st.inflow t.1 t.2 - 1) p.1 p.2 = 0
        rw [if_pos hz, ← List.append_assoc, hl]
        by_cases hpt : p = t
        · subst hpt
          rw [upd_apply, if_pos ⟨rfl, rfl⟩]
          constructor
          · intro _
            exact hz
          · intro _
            exact List.mem_append.mpr (Or.inr (List.mem_singleton.mpr rfl))
        · rw [upd_apply, if_neg (fun hc => hpt (Prod.ext hc.1 hc.2))]
          constructor
          · intro hmem
            rcases List.mem_append.mp hmem with h1 | h1
            · exact (hD p hp).mp h1
            · rw [List.mem_singleton] at h1
              exact absurd h1 hpt
          · intro h0
            exact List.mem_append.mpr (Or.inl ((hD p hp).mpr h0))
    · refine ⟨?_, ?_, ?_, ?_⟩
      · intro p
        show upd st.inflow t.1 t.2 (st.inflow t.1 t.2 - 1) p.1 p.2 =
          indeg dem cX cY dd p.1 p.2 -
            (inCount dem cX cY dd p (st.popTrace ++ [rc]) : ℤ)
        by_cases hp : p = t
        · subst hp
          rw [upd_apply, if_pos ⟨rfl, rfl⟩, inCount_append, hcrc]
          have := hA p
          push_cast
          omega
        · rw [upd_apply, if_neg (fun hc => hp (Prod.ext hc.1 hc.2)),
            inCount_append, inCount_singleton,
            if_neg (fun hc => hp (by rw [hrecv] at hc; exact (Option.some_inj.mp hc).symm))]
          exact hA p
      · show ((st.popTrace ++ [rc]) ++
          (if st.inflow t.1 t.2 - 1 = 0 then rest ++ [t] else rest)).Nodup
        rw [if_neg hz, hl]
        exact hB
      · show ∀ p ∈ (st.popTrace ++ [rc]) ++
          (if st.inflow t.1 t.2 - 1 = 0 then rest ++ [t] else rest), valid dem p
        rw [if_neg hz, hl]
        exact hC
      · intro p hp
        show p ∈ (st.popTrace ++ [rc]) ++
            (if st.inflow t.1 t.2 - 1 = 0 then rest ++ [t] else rest) ↔
          upd st.inflow t.1 t.2 (st.inflow t.1 t.2 - 1) p.1 p.2 = 0
        rw [if_neg hz, hl]
        by_cases hpt : p = t
        · subst hpt
          rw [upd_apply, if_pos ⟨rfl, rfl⟩]
          constructor
          · intro hmem
            exact absurd hmem htnot
          · intro h0
            exact absurd h0 hz
        · rw [upd_apply, if_neg (fun hc => hpt (Prod.ext hc.1 hc.2))]
          exact hD p hp

theorem d8Step_popTrace (dem : Raster) (cX cY dd : ℚ) (st : D8State) (rc : ℤ × ℤ) :
    (d8Step dem cX cY dd st rc).popTrace = st.popTrace := by
  rcases hrecv : recvOf dem cX cY dd rc.1 rc.2 with _ | t
  · rw [d8Step_none dem cX cY dd st rc hrecv]
  · rw [d8Step_some dem cX cY dd st rc t hrecv]

/-- The initial state (pointer pass, inflow counters, seed queue)
satisfies the Kahn invariant. -/
theorem kahnInv_init (dem : Raster) (cX cY dd : ℚ) :
    kahnInv dem cX cY dd (d8InitState dem cX cY dd) := by
  refine ⟨?_, ?_, ?_, ?_⟩
  · intro p
    show indeg dem cX cY dd p.1 p.2 =
      indeg dem cX cY dd p.1 p.2 - (inCount dem cX cY dd p [] : ℤ)
    rw [inCount, List.countP_nil]
    simp
  · show ([] ++ seeds dem cX cY dd).Nodup
    rw [List.nil_append, seeds]
    exact List.Nodup.filter _ (cellList_nodup _ _)
  · show ∀ p ∈ [] ++ seeds dem cX cY dd, valid dem p
    intro p hp
    rw [List.nil_append, seeds, List.mem_filter] at hp
    have h2 := hp.2
    simp only [decide_eq_true_eq] at h2
    exact h2.1
  · intro p hp
    show p ∈ [] ++ seeds dem cX cY dd ↔ indeg dem cX cY dd p.1 p.2 = 0
    rw [List.nil_append, seeds, List.mem_filter]
    simp only [decide_eq_true_eq]
    constructor
    · rintro ⟨_, _, h2⟩
      exact h2
    · intro h0
      exact ⟨(mem_cellList_iff_inRange dem p).mpr
        (value_ne_nodata_inRange dem p.1 p.2 hp), hp, h0⟩

/-- With the Kahn invariant and enough fuel for the cells not yet popped,
the FIFO loop terminates with an empty queue, preserving the invariant. -/
theorem d8Loop_total (dem : Raster) (cX cY dd : ℚ) (hcX : 0 < cX) (hcY : 0 < cY)
    (hdd : 0 < dd) :
    ∀ (fuel : ℕ) (st : D8State), kahnInv dem cX cY dd st →
      (cellList dem.Rows dem.Columns).length ≤ fuel + st.popTrace.length →
      ∃ st', d8Loop dem cX cY dd fuel st = some st' ∧
        kahnInv dem cX cY dd st' ∧ st'.queue = [] := by
  intro fuel
  induction fuel with
  | zero =>
      intro st hinv hlen
      obtain ⟨hA, hB, hC, hD⟩ := hinv
      have hqe : st.queue = [] := by
        rcases hqq : st.queue with _ | ⟨rc, rest⟩
        · rfl
        · exfalso
          rw [hqq] at hB hC
          have hsub : ∀ x ∈ st.popTrace ++ rc :: rest,
              x ∈ cellList dem.Rows dem.Columns :=
            fun x hx => (mem_cellList_iff_inRange dem x).mpr
              (value_ne_nodata_inRange dem x.1 x.2 (hC x hx))
          have hsp := List.subperm_of_subset hB hsub
          have hle := hsp.length_le
          rw [List.length_append, List.length_cons] at hle
          omega
      refine ⟨st, ?_, ⟨hA, hB, hC, hD⟩, hqe⟩
      rw [d8Loop, if_pos hqe]
  | succ fuel ih =>
      intro st hinv hlen
      rcases hqq : st.queue with _ | ⟨rc, rest⟩
      · refine ⟨st, ?_, hinv, hqq⟩
        rw [d8Loop, hqq]
      · have hstep := kahnInv_step dem cX cY dd hcX hcY hdd st rc rest hqq hinv
        have hpt : (d8Step dem cX cY dd
            { st with queue := rest, popTrace := st.popTrace ++ [rc] } rc).popTrace =
            st.popTrace ++ [rc] :=
          d8Step_popTrace dem cX cY dd _ rc
        have hlen' : (cellList dem.Rows dem.Columns).length ≤
            fuel + (d8Step dem cX cY dd
              { st with queue := rest, popTrace := st.popTrace ++ [rc] } rc).popTrace.length := by
          rw [hpt, List.length_append, List.length_cons, List.length_nil]
          omega
        obtain ⟨st', hrun, hinv', hq'⟩ := ih _ hstep hlen'
        refine ⟨st', ?_, hinv', hq'⟩
        rw [d8Loop, hqq]
        exact hrun

end D8

theorem count_one_of_nodup_mem {α : Type} [BEq α] [LawfulBEq α] [DecidableEq α]
    {l : List α} {a : α} (hn : l.Nodup) (ha : a ∈ l) : l.count a = 1 := by
  induction l with
  | nil => simp at ha
  | cons x t ih =>
      rw [List.count_cons]
      rcases List.mem_cons.mp ha with rfl | hat
      · rw [List.nodup_cons] at hn
        have h0 : t.count a = 0 := List.count_eq_zero.mpr hn.1
        simp [h0]
      · rw [List.nodup_cons] at hn
        have hxa : ¬ x = a := by
          intro h
          subst h
          exact hn.1 hat
        simp [ih hn.2 hat, hxa]

/-- **C6**.  For D8 flow accumulation on a depressionless DEM (every
valid cell has a strictly lower 8-neighbour or a nodata/off-grid
8-neighbour) with positive cell sizes, the FIFO main loop terminates with
an empty queue, every inflow counter is zero, and every valid cell was
enqueued (and hence popped) exactly once; no nodata cell is ever
enqueued. -/
theorem claim6_d8_kahn (dem : Raster) (cX cY dd : ℚ)
    (hcX : 0 < cX) (hcY : 0 < cY) (hdd : 0 < dd)
    (hdep : ∀ p : ℤ × ℤ, D8.valid dem p →
      ∃ n : ℕ, n < 8 ∧ (dem.Value (p.1 + dY n) (p.2 + dX n) = dem.NoDataValue ∨
        dem.Value (p.1 + dY n) (p.2 + dX n) < dem.Value p.1 p.2)) :
    ∃ st, D8.d8Run dem cX cY dd = some st ∧ st.queue = [] ∧
      (∀ r c : ℤ, st.inflow r c = 0) ∧
      (∀ p : ℤ × ℤ, D8.valid dem p → st.popTrace.count p = 1) ∧
      (∀ p : ℤ × ℤ, ¬ D8.valid dem p → st.popTrace.count p = 0) := by
  have hinit := D8.kahnInv_init dem cX cY dd
  have hlen0 : (cellList dem.Rows dem.Columns).length ≤
      ((dem.Rows * dem.Columns).toNat + 1) +
        (D8.d8InitState dem cX cY dd).popTrace.length := by
    rw [D8.cellList_length]
    have h := D8.toNat_mul_le dem.Rows dem.Columns
    omega
  obtain ⟨st, hrun, hinv, hqnil⟩ :=
    D8.d8Loop_total dem cX cY dd hcX hcY hdd _ _ hinit hlen0
  obtain ⟨hA, hB, hC, hD⟩ := hinv
  rw [hqnil, List.append_nil] at hB hC hD
  have hTsub : ∀ x ∈ st.popTrace, x ∈ cellList dem.Rows dem.Columns :=
    fun x hx => (D8.mem_cellList_iff_inRange dem x).mpr
      (D8.value_ne_nodata_inRange dem x.1 x.2 (hC x hx))
  have hcomplete : ∀ p : ℤ × ℤ, D8.valid dem p → p ∈ st.popTrace := by
    by_contra hcon
    push_neg at hcon
    obtain ⟨p₀, hvp₀, hnp₀⟩ := hcon
    have hp₀L : p₀ ∈ (cellList dem.Rows dem.Columns).filter
        (fun p => decide (D8.valid dem p ∧ p ∉ st.popTrace)) := by
      rw [List.mem_filter]
      exact ⟨(D8.mem_cellList_iff_inRange dem p₀).mpr
        (D8.value_ne_nodata_inRange dem p₀.1 p₀.2 hvp₀), by simp [hvp₀, hnp₀]⟩
    have hLne : ((cellList dem.Rows dem.Columns).filter
        (fun p => decide (D8.valid dem p ∧ p ∉ st.popTrace))).toFinset.Nonempty :=
      ⟨p₀, List.mem_toFinset.mpr hp₀L⟩
    obtain ⟨pm, hpmF, hmax⟩ := Finset.exists_max_image _
      (fun p : ℤ × ℤ => dem.Value p.1 p.2) hLne
    rw [List.mem_toFinset, List.mem_filter] at hpmF
    obtain ⟨hpmCell, hpmPred⟩ := hpmF
    simp only [decide_eq_true_eq] at hpmPred
    obtain ⟨hvpm, hnpm⟩ := hpmPred
    have hnz : st.inflow pm.1 pm.2 ≠ 0 := fun h0 => hnpm ((hD pm hvpm).mpr h0)
    have hle : D8.inCount dem cX cY dd pm st.popTrace ≤
        D8.inCount dem cX cY dd pm (cellList dem.Rows dem.Columns) :=
      List.Subperm.countP_le _ (List.subperm_of_subset hB hTsub)
    have hApm := hA pm
    have hIpm := D8.indeg_eq dem cX cY dd pm.1 pm.2
    rw [Prod.mk.eta] at hIpm
    have hex : ∃ q ∈ cellList dem.Rows dem.Columns,
        D8.recvOf dem cX cY dd q.1 q.2 = some pm ∧ q ∉ st.popTrace := by
      by_contra hno
      push_neg at hno
      have hfsub : (cellList dem.Rows dem.Columns).filter
          (fun q => decide (D8.recvOf dem cX cY dd q.1 q.2 = some pm)) ⊆
          st.popTrace.filter
            (fun q => decide (D8.recvOf dem cX cY dd q.1 q.2 = some pm)) := by
        intro x hx
        rw [List.mem_filter] at hx ⊢
        obtain ⟨hx1, hx2⟩ := hx
        simp only [decide_eq_true_eq] at hx2
        exact ⟨hno x hx1 hx2, by simp [hx2]⟩
      have hsp := List.subperm_of_subset
        (List.Nodup.filter _ (D8.cellList_nodup dem.Rows dem.Columns)) hfsub
      have hlen := hsp.length_le
      rw [← List.countP_eq_length_filter, ← List.countP_eq_length_filter] at hlen
      have hge : D8.inCount dem cX cY dd pm (cellList dem.Rows dem.Columns) ≤
          D8.inCount dem cX cY dd pm st.popTrace := hlen
      omega
    obtain ⟨q, hqCell, hqPred, hqNot⟩ := hex
    obtain ⟨hvq, _, hqlt⟩ := D8.recvOf_spec dem cX cY dd hcX hcY hdd q pm hqPred
    have hqL : q ∈ (cellList dem.Rows dem.Columns).filter
        (fun p => decide (D8.valid dem p ∧ p ∉ st.popTrace)) := by
      rw [List.mem_filter]
      exact ⟨hqCell, by simp [hvq, hqNot]⟩
    have hqle := hmax q (List.mem_toFinset.mpr hqL)
    exact absurd hqle (not_le.mpr hqlt)
  refine ⟨st, ?_, hqnil, ?_, ?_, ?_⟩
  · rw [D8.d8Run]
    exact hrun
  · intro r c
    by_cases hv : D8.valid dem (r, c)
    · have h1 : D8.inCount dem cX cY dd (r, c) st.popTrace ≤
          D8.inCount dem cX cY dd (r, c) (cellList dem.Rows dem.Columns) :=
        List.Subperm.countP_le _ (List.subperm_of_subset hB hTsub)
      have h2 : D8.inCount dem cX cY dd (r, c) (cellList dem.Rows dem.Columns) ≤
          D8.inCount dem cX cY dd (r, c) st.popTrace := by
        have hfsub : (cellList dem.Rows dem.Columns).filter
            (fun q => decide (D8.recvOf dem cX cY dd q.1 q.2 = some (r, c))) ⊆
            st.popTrace.filter
              (fun q => decide (D8.recvOf dem cX cY dd q.1 q.2 = some (r, c))) := by
          intro x hx
          rw [List.mem_filter] at hx ⊢
          obtain ⟨hx1, hx2⟩ := hx
          simp only [decide_eq_true_eq] at hx2
          have hvx := (D8.recvOf_spec dem cX cY dd hcX hcY hdd x (r, c) hx2).1
          exact ⟨hcomplete x hvx, by simp [hx2]⟩
        have hsp := List.subperm_of_subset
          (List.Nodup.filter _ (D8.cellList_nodup dem.Rows dem.Columns)) hfsub
        have hlen := hsp.length_le
        rw [← List.countP_eq_length_filter, ← List.countP_eq_length_filter] at hlen
        exact hlen
      have hA2 : st.inflow r c = D8.indeg dem cX cY dd r c -
          (D8.inCount dem cX cY dd (r, c) st.popTrace : ℤ) := hA (r, c)
      have hI := D8.indeg_eq dem cX cY dd r c
      omega
    · have hzero : ∀ l : List (ℤ × ℤ), D8.inCount dem cX cY dd (r, c) l = 0 := by
        intro l
        rw [D8.inCount]
        apply List.countP_eq_zero.mpr
        intro q hq
        simp only [decide_eq_true_eq]
        intro hc
        exact hv ((D8.recvOf_spec dem cX cY dd hcX hcY hdd q (r, c) hc).2.1)
      have hA2 : st.inflow r c = D8.indeg dem cX cY dd r c -
          (D8.inCount dem cX cY dd (r, c) st.popTrace : ℤ) := hA (r, c)
      have hI := D8.indeg_eq dem cX cY dd r c
      rw [hzero] at hA2 hI
      omega
  · intro p hv
    exact count_one_of_nodup_mem hB (hcomplete p hv)
  · intro p hv
    exact List.count_eq_zero.mpr (fun hmem => hv (hC p hmem))

/-- Witness for C6: the staircase DEM with unit cell sizes is
depressionless, its run terminates, all counters end at zero, and each of
its five valid cells is popped exactly once. -/
theorem claim6_witness :
    ∃ st, D8.d8Run D8.dem5 1 1 1 = some st ∧ st.queue = [] ∧
      (∀ r c : ℤ, st.inflow r c = 0) ∧
      (∀ p : ℤ × ℤ, D8.valid D8.dem5 p → st.popTrace.count p = 1) ∧
      (∀ p : ℤ × ℤ, ¬ D8.valid D8.dem5 p → st.popTrace.count p = 0) := by
  refine claim6_d8_kahn D8.dem5 1 1 1 (by norm_num) (by norm_num) (by norm_num) ?_
  intro p hp
  have hir := D8.value_ne_nodata_inRange D8.dem5 p.1 p.2 hp
  obtain ⟨a, b⟩ := p
  simp only [D8.inRange, D8.dem5] at hir
  obtain ⟨h1, h2, h3, h4⟩ := hir
  have ha : a = 0 := by omega
  subst ha
  refine ⟨1, by norm_num, ?_⟩
  interval_cases b
  · right
    norm_num [D8.dem5, Raster.Value, dX, dY]
  · right
    norm_num [D8.dem5, Raster.Value, dX, dY]
  · right
    norm_num [D8.dem5, Raster.Value, dX, dY]
  · right
    norm_num [D8.dem5, Raster.Value, dX, dY]
  · left
    norm_num [D8.dem5, Raster.Value, dX, dY]

/-! ### Claim C5: empty pop in the complete-breaching branch -/

theorem f2i_eq_floor_of_nonneg (q : ℚ) (h : 0 ≤ q) : f2i q = ⌊q⌋ := by
  rw [f2i, if_neg (by simpa using Rat.num_nonneg.mpr h : ¬q.num < 0), Rat.floor_def]

theorem f2i_of_int_bounds (q : ℚ) (n : ℤ) (h0 : 0 ≤ q) (h1 : (n : ℚ) ≤ q)
    (h2 : q < n + 1) : f2i q = n := by
  rw [f2i_eq_floor_of_nonneg q h0]
  rw [Int.floor_eq_iff]
  constructor
  · exact h1
  · push_cast
    exact h2

theorem cellList33 : cellList 3 3 =
    [((0:ℤ), (0:ℤ)), (0, 1), (0, 2), (1, 0), (1, 1), (1, 2), (2, 0), (2, 1), (2, 2)] := by
  decide

theorem c5_min : Breach.demCollide.GetMinimumValue = 1 / 2000000 := by
  rw [Raster.GetMinimumValue,
    show cellList Breach.demCollide.Rows Breach.demCollide.Columns =
      [((0:ℤ), (0:ℤ)), (0, 1), (0, 2), (1, 0), (1, 1), (1, 2), (2, 0), (2, 1), (2, 2)]
    from cellList33]
  norm_num [Breach.demCollide, maxFloat64]

theorem c5_max : Breach.demCollide.GetMaximumValue = 2 := by
  rw [Raster.GetMaximumValue,
    show cellList Breach.demCollide.Rows Breach.demCollide.Columns =
      [((0:ℤ), (0:ℤ)), (0, 1), (0, 2), (1, 0), (1, 1), (1, 2), (2, 0), (2, 1), (2, 2)]
    from cellList33]
  norm_num [Breach.demCollide, maxFloat64]

theorem c5_mult : elevMultiplierOf Breach.demCollide = 10000000 := by
  rw [elevMultiplierOf, c5_min, c5_max]
  have hf : f2i (2 - 1 / 2000000 : ℚ) = 1 :=
    f2i_of_int_bounds _ 1 (by norm_num) (by norm_num) (by norm_num)
  rw [hf]
  have hl : itoaLen 1 = 1 := by
    simp [itoaLen, digits10]
  rw [hl]
  norm_num [qpow10, powQ]

theorem c5_small : Breach.smallNumOf Breach.demCollide = 1 / 1000000 := by
  rw [Breach.smallNumOf, c5_mult]
  norm_num

/-! ### Claim C9: BreachStreams priority keys

The truncation `int64(x)` is within 1 of `x` in either direction, and the
elevation multiplier `10^(8 - len(strconv.Itoa(int(max-min))))` keeps
`(max - min) * elevMultiplier` below `10^8`, so for elevations inside the
DEM's range the elevation components of any two keys differ by less than
`10^8 + 2`; the `10^13` base of non-stream keys therefore dominates. -/

theorem f2i_bounds (q : ℚ) : q - 1 < (f2i q : ℚ) ∧ (f2i q : ℚ) < q + 1 := by
  rcases le_or_lt 0 q with h | h
  · rw [f2i_eq_floor_of_nonneg q h]
    refine ⟨Int.sub_one_lt_floor q, ?_⟩
    have h1 := Int.floor_le q
    linarith
  · have hq : f2i q = - f2i (-q) := by
      have h0 := f2i_neg q
      omega
    have hneg : (0 : ℚ) ≤ -q := by linarith
    rw [hq, f2i_eq_floor_of_nonneg (-q) hneg]
    have h1 := Int.floor_le (-q)
    have h2 := Int.sub_one_lt_floor (-q)
    push_cast
    constructor <;> linarith

theorem qpow10_range_bound (D : ℚ) (hD0 : 0 ≤ D) :
    D * qpow10 ((8 : ℤ) - itoaLen (f2i D)) < 100000000 := by
  have hfD : f2i D = ⌊D⌋ := f2i_eq_floor_of_nonneg _ hD0
  have hfD0 : 0 ≤ f2i D := by
    rw [hfD]
    exact Int.floor_nonneg.mpr hD0
  have hd : itoaLen (f2i D) = digits10 (f2i D).toNat := by
    rw [itoaLen, if_neg (not_lt.mpr hfD0)]
  have hlt : (f2i D).toNat < 10 ^ itoaLen (f2i D) := by
    rw [hd]
    exact lt_pow10_digits10 _
  have hltZ : f2i D < (10 : ℤ) ^ itoaLen (f2i D) := by
    have h1 : ((f2i D).toNat : ℤ) < ((10 ^ itoaLen (f2i D) : ℕ) : ℤ) := by
      exact_mod_cast hlt
    rw [Int.toNat_of_nonneg hfD0] at h1
    exact_mod_cast h1
  have hle2 : (f2i D : ℚ) + 1 ≤ (10 : ℚ) ^ itoaLen (f2i D) := by
    have h2 := Int.add_one_le_iff.mpr hltZ
    exact_mod_cast h2
  have hfl : D < (f2i D : ℚ) + 1 := by
    rw [hfD]
    exact Int.lt_floor_add_one D
  have hDlt : D < (10 : ℚ) ^ itoaLen (f2i D) := lt_of_lt_of_le hfl hle2
  have hmp : (0 : ℚ) < (10 : ℚ) ^ ((8 : ℤ) - itoaLen (f2i D)) := by positivity
  rw [qpow10_eq_zpow]
  calc D * (10 : ℚ) ^ ((8 : ℤ) - itoaLen (f2i D))
      < (10 : ℚ) ^ itoaLen (f2i D) * (10 : ℚ) ^ ((8 : ℤ) - itoaLen (f2i D)) :=
        mul_lt_mul_of_pos_right hDlt hmp
    _ = (10 : ℚ) ^ ((8 : ℤ)) := by
        rw [← zpow_natCast (10 : ℚ) (itoaLen (f2i D)),
          ← zpow_add₀ (by norm_num : (10 : ℚ) ≠ 0)]
        congr 1
        ring
    _ = 100000000 := by norm_num

theorem demC3_min : FillDep.demC3.GetMinimumValue = 5 := by
  rw [Raster.GetMinimumValue]
  norm_num [FillDep.demC3, show cellList 1 2 = [(0, 0), (0, 1)] from by decide, maxFloat64]

theorem demC3_max : FillDep.demC3.GetMaximumValue = 9 := by
  rw [Raster.GetMaximumValue]
  norm_num [FillDep.demC3, show cellList 1 2 = [(0, 0), (0, 1)] from by decide, maxFloat64]

theorem demC3_mult : elevMultiplierOf FillDep.demC3 = 10000000 := by
  rw [elevMultiplierOf, demC3_max, demC3_min]
  rw [show ((9 : ℚ) - 5) = ((4 : ℤ) : ℚ) from by norm_num, f2i_intCast]
  rw [show itoaLen 4 = 1 from by simp [itoaLen, digits10]]
  norm_num [qpow10, powQ]

/-- **C9**.  In `BreachStreams.Run` every key pushed for a stream cell is
`int64(z*elevMultiplier)·10000 + n mod 10000` (base 0) and every key for a
non-stream cell is `10^13 + int64(z*elevMultiplier)·10000 + n mod 10000`
(base `10^13`), with tie multiplier `10000` in both; consequently, for
elevations inside the DEM's range (where the code's elevation multiplier
keeps every elevation component below `10^8` of any other, the bound the
`10^13` base is designed for), a stream cell's key is strictly below that
of a non-stream cell whose elevation-derived component is equal or lower,
so the min-queue pops the stream cell first. -/
theorem claim9_stream_priority (dem : Raster) (zs zn : ℚ) (ns nn : ℤ)
    (hs1 : dem.GetMinimumValue ≤ zs) (hs2 : zs ≤ dem.GetMaximumValue)
    (hn1 : dem.GetMinimumValue ≤ zn) (hn2 : zn ≤ dem.GetMaximumValue)
    (hlow : f2i (zn * elevMultiplierOf dem) ≤ f2i (zs * elevMultiplierOf dem)) :
    BreachStr.streamKey (elevMultiplierOf dem) zs ns =
        f2i (zs * elevMultiplierOf dem) * 10000 + ns % 10000 ∧
    BreachStr.nonStreamKey (elevMultiplierOf dem) zn nn =
        10 ^ 13 + f2i (zn * elevMultiplierOf dem) * 10000 + nn % 10000 ∧
    BreachStr.streamKey (elevMultiplierOf dem) zs ns <
      BreachStr.nonStreamKey (elevMultiplierOf dem) zn nn := by
  refine ⟨rfl, by norm_num [BreachStr.nonStreamKey], ?_⟩
  have hmp : 0 < elevMultiplierOf dem := by
    rw [elevMultiplierOf]
    exact qpow10_pos _
  have hDb : (dem.GetMaximumValue - dem.GetMinimumValue) * elevMultiplierOf dem <
      100000000 := by
    rw [elevMultiplierOf]
    exact qpow10_range_bound _ (sub_nonneg.mpr (le_trans hs1 hs2))
  have hEs := f2i_bounds (zs * elevMultiplierOf dem)
  have hEn := f2i_bounds (zn * elevMultiplierOf dem)
  have hdz : zs - zn ≤ dem.GetMaximumValue - dem.GetMinimumValue := by linarith
  have hm1 : (zs - zn) * elevMultiplierOf dem ≤
      (dem.GetMaximumValue - dem.GetMinimumValue) * elevMultiplierOf dem :=
    mul_le_mul_of_nonneg_right hdz (le_of_lt hmp)
  have hq : ((f2i (zs * elevMultiplierOf dem) - f2i (zn * elevMultiplierOf dem) : ℤ) : ℚ) <
      100000002 := by
    push_cast
    linarith [hEs.2, hEn.1, hm1, hDb]
  have hZ : f2i (zs * elevMultiplierOf dem) - f2i (zn * elevMultiplierOf dem) <
      100000002 := by
    exact_mod_cast hq
  have h1 : 0 ≤ ns % 10000 := Int.emod_nonneg ns (by norm_num)
  have h2 : ns % 10000 < 10000 := Int.emod_lt_of_pos ns (by norm_num)
  have h3 : 0 ≤ nn % 10000 := Int.emod_nonneg nn (by norm_num)
  have h4 : nn % 10000 < 10000 := Int.emod_lt_of_pos nn (by norm_num)
  have hmul : (f2i (zs * elevMultiplierOf dem) - f2i (zn * elevMultiplierOf dem)) * 10000 ≤
      100000001 * 10000 :=
    mul_le_mul_of_nonneg_right (by omega) (by norm_num)
  unfold BreachStr.streamKey BreachStr.nonStreamKey
  linarith [hmul]

/-- Witness for C9, on the concrete DEM `[[5, 9]]` (multiplier `10^7`):
the stream cell has elevation 9 and the non-stream cell the strictly
lower elevation 5, and the stream key `9·10^11 + 7` is still below the
non-stream key `10^13 + 5·10^11 + 2`. -/
theorem claim9_witness :
    BreachStr.streamKey (elevMultiplierOf FillDep.demC3) 9 7 = 900000000007 ∧
    BreachStr.nonStreamKey (elevMultiplierOf FillDep.demC3) 5 2 = 10500000000002 ∧
    BreachStr.streamKey (elevMultiplierOf FillDep.demC3) 9 7 <
      BreachStr.nonStreamKey (elevMultiplierOf FillDep.demC3) 5 2 := by
  have h := claim9_stream_priority FillDep.demC3 9 5 7 2
    (by rw [demC3_min]; norm_num) (by rw [demC3_max])
    (by rw [demC3_min]) (by rw [demC3_max]; norm_num)
    (by rw [demC3_mult]; norm_num)
  refine ⟨?_, ?_, h.2.2⟩
  · rw [BreachStr.streamKey, demC3_mult,
      show ((9 : ℚ) * 10000000) = ((90000000 : ℤ) : ℚ) from by norm_num, f2i_intCast]
    decide
  · rw [BreachStr.nonStreamKey, demC3_mult,
      show ((5 : ℚ) * 10000000) = ((50000000 : ℤ) : ℚ) from by norm_num, f2i_intCast]
    decide

end GoSpatial
